import Mathlib

/-!
# A shallow embedding of the wasm-pfc flow/data mapper

This file embeds, in Lean 4, the flow and data mapper of the wasm-pfc
repository (`src/parallelize.rs`, with the earlier walker of
`src/flow_mapper.rs`), and proves or refutes the frozen specification
claims about it.

Modelling conventions:

* Rust `HashMap<usize, V>` is modelled as an association list
  `List (Nat × V)` with insert-or-replace semantics (`insertKV`).  The
  source iterates maps in unspecified hash order; here iteration follows
  list order.  All concrete inputs used below keep at most one relevant
  entry per map wherever the claim could be sensitive to iteration order.
* Rust `usize` is modelled as `Nat` (no arithmetic in the mapper can
  overflow a 64-bit `usize` on the inputs considered; subtraction such as
  `i - 1` is Rust-checked in debug builds but its wrapping never occurs on
  walked inputs, and `Nat` truncated subtraction matches the release
  semantics at 0).
* Out-of-bounds Rust indexing (`buf[start..end]`, `table.buffer[d]`,
  `resources.globals()[g]`) panics in Rust; where a claim's hypotheses
  keep the index in bounds it is modelled with `List.getD`, and map
  indexing that the source performs with `HashMap::index` (a panic when
  the key is absent) is modelled by an `Option` failure.
* The external validating operator parser is modelled by its contract: a
  list of read results, each an operator together with the
  `current_position()` value observed right after the read, or a decode
  error.
* The recursive walker and the recursive tree expander are not
  structurally recursive, so they take an explicit fuel argument and
  return `none` when it runs out (and when the source would panic).  All
  fuel recursion is structural, so closed runs evaluate by `rfl`/`decide`.
* Interactive stdin prompts (`expand_tree`, `lower`) are modelled by a
  boolean policy argument, as the spec's §5 policy interface suggests.
-/

/-- Primitive WASM value types, from the `primitives::Type` enum as used
by the mapper (`I32`/`I64`/`F32`/`F64`/`V128`, plus `AnyRef` which the
source uses as the fallback in `get_first_input_variable`). -/
inductive Ty where
  | I32
  | I64
  | F32
  | F64
  | V128
  | AnyRef
deriving DecidableEq, Repr

/-- `AbstractExpression`: the simulatable abstract operations recorded in
`Node.operations` (src/parallelize.rs lines 41-46). -/
inductive AbstractExpression where
  | Spin (id : Nat)
  | Num (val : Nat)
  | Add (ty : Ty)
  | Mul (ty : Ty)
deriving DecidableEq, Repr

/-- `HashMap::insert`: replace the value when the key is present,
otherwise add the binding.  The replacement keeps the entry's place in
the list; a new binding is appended. -/
def insertKV {α : Type} (m : List (Nat × α)) (k : Nat) (v : α) : List (Nat × α) :=
  if k ∈ m.map Prod.fst then m.map (fun p => if p.1 = k then (k, v) else p)
  else m ++ [(k, v)]

/-- `HashMap::get` / indexing: the value at a key, if present. -/
def lookupKV {α : Type} : List (Nat × α) → Nat → Option α
  | [], _ => none
  | p :: rest, k => if p.1 = k then some p.2 else lookupKV rest k

/-- `HashMap::remove` (the removed value itself is never used by the
mapper, so only the resulting map is returned). -/
def removeKV {α : Type} (m : List (Nat × α)) (k : Nat) : List (Nat × α) :=
  m.filter (fun p => p.1 != k)

/-- The key set of a map (`HashMap::keys`). -/
def keysOf {α : Type} (m : List (Nat × α)) : List Nat :=
  m.map Prod.fst

/-- `keys().max()` with the source's `true_max` fallback of 0 for an
empty map (`Mapper::unique_block_id`, src/parallelize.rs lines 514-525):
the maximum key, or 0 when there is none. -/
def maxKeyD {α : Type} (m : List (Nat × α)) : Nat :=
  (m.map Prod.fst).foldr max 0

/-- The flat data of a `Node` (src/parallelize.rs lines 74-93), excluding
the recursive `children` field, which Lean's `structure` cannot hold
directly; `Node` below pairs this data with the children map. -/
structure NodeData where
  id : Nat
  instrs : List Nat
  branches : List (Nat × Nat)
  calls : List (Nat × Nat)
  start : Nat
  endPos : Nat
  constants : List (Nat × Ty)
  internal_variables : List (Nat × Ty)
  input_variables : List (Nat × Ty)
  output_variables : List (Nat × Ty)
  global_input_data_couplings : List (Nat × Nat)
  global_output_data_couplings : List (Nat × Nat)
  flow_control_couplings : List (Nat × Nat)
  input_data_couplings : List (Nat × Nat)
  output_data_couplings : List (Nat × Nat)
  blocks : List (Nat × Nat)
  operations : List (Nat × AbstractExpression)
deriving Repr

/-- A `Node` (src/parallelize.rs lines 74-93): its flat data plus the
`children` map from callee id to child node. -/
inductive Node where
  | mk (data : NodeData) (children : List (Nat × Node))

/-- The flat data of a node. -/
def Node.data : Node → NodeData
  | .mk d _ => d

/-- The `children` map of a node. -/
def Node.children : Node → List (Nat × Node)
  | .mk _ c => c

/-- Apply an update to the flat data of a node, keeping its children. -/
def Node.withData (f : NodeData → NodeData) : Node → Node
  | .mk d c => .mk (f d) c

/-- `Node::default` (src/parallelize.rs lines 97-137): every field empty
or zero. -/
def Node.default : Node :=
  .mk { id := 0, instrs := [], branches := [], calls := [], start := 0,
        endPos := 0, constants := [], internal_variables := [],
        input_variables := [], output_variables := [],
        global_input_data_couplings := [], global_output_data_couplings := [],
        flow_control_couplings := [], input_data_couplings := [],
        output_data_couplings := [], blocks := [], operations := [] } []

/-- `Node::set_id`. -/
def Node.set_id (n : Node) (id : Nat) : Node :=
  n.withData (fun d => { d with id := id })

/-- `Node::add_internal_variable` (src/parallelize.rs lines 242-245):
inserts the type at the caller-supplied key `i` and returns `i - 1`. -/
def Node.add_internal_variable (n : Node) (i : Nat) (ty : Ty) : Nat × Node :=
  (i - 1, n.withData (fun d =>
    { d with internal_variables := insertKV d.internal_variables i ty }))

/-- `Node::add_input_variable` (src/parallelize.rs lines 248-252):
the fresh id is `self.id + self.input_variables.len()`. -/
def Node.add_input_variable (n : Node) (ty : Ty) : Nat × Node :=
  let var_id := n.data.id + n.data.input_variables.length
  (var_id, n.withData (fun d =>
    { d with input_variables := insertKV d.input_variables var_id ty }))

/-- `Node::add_output_variable` (src/parallelize.rs lines 255-259):
the fresh id is `self.id + self.output_variables.len()`. -/
def Node.add_output_variable (n : Node) (ty : Ty) : Nat × Node :=
  let var_id := n.data.id + n.data.output_variables.length
  (var_id, n.withData (fun d =>
    { d with output_variables := insertKV d.output_variables var_id ty }))

/-- `Node::add_constant` (src/parallelize.rs lines 262-266):
the fresh id is `self.id + 1 + self.constants.len()`. -/
def Node.add_constant (n : Node) (ty : Ty) : Nat × Node :=
  let var_id := n.data.id + 1 + n.data.constants.length
  (var_id, n.withData (fun d =>
    { d with constants := insertKV d.constants var_id ty }))

/-- `Node::add_operation`. -/
def Node.add_operation (n : Node) (i : Nat) (op : AbstractExpression) : Node :=
  n.withData (fun d => { d with operations := insertKV d.operations i op })

/-- `Node::add_flow_control_coupling`. -/
def Node.add_flow_control_coupling (n : Node) (i : Nat) (var_id : Nat) : Node :=
  n.withData (fun d =>
    { d with flow_control_couplings := insertKV d.flow_control_couplings i var_id })

/-- `Node::add_input_data_coupling`. -/
def Node.add_input_data_coupling (n : Node) (memarg : Nat) (var_id : Nat) : Node :=
  n.withData (fun d =>
    { d with input_data_couplings := insertKV d.input_data_couplings memarg var_id })

/-- `Node::add_output_data_coupling`. -/
def Node.add_output_data_coupling (n : Node) (memarg : Nat) (var_id : Nat) : Node :=
  n.withData (fun d =>
    { d with output_data_couplings := insertKV d.output_data_couplings memarg var_id })

/-- `Node::add_global_input_data_coupling`. -/
def Node.add_global_input_data_coupling (n : Node) (memarg : Nat) (var_id : Nat) : Node :=
  n.withData (fun d =>
    { d with global_input_data_couplings := insertKV d.global_input_data_couplings memarg var_id })

/-- `Node::add_global_output_data_coupling`. -/
def Node.add_global_output_data_coupling (n : Node) (memarg : Nat) (var_id : Nat) : Node :=
  n.withData (fun d =>
    { d with global_output_data_couplings := insertKV d.global_output_data_couplings memarg var_id })

/-- `Node::add_branch`. -/
def Node.add_branch (n : Node) (branch_index : Nat) (relative_depth : Nat) : Node :=
  n.withData (fun d => { d with branches := insertKV d.branches branch_index relative_depth })

/-- `Node::has_branch`. -/
def Node.has_branch (n : Node) (branch_index : Nat) : Bool :=
  decide (branch_index ∈ keysOf n.data.branches)

/-- `Node::add_block`. -/
def Node.add_block (n : Node) (start_index : Nat) (block_index : Nat) : Node :=
  n.withData (fun d => { d with blocks := insertKV d.blocks start_index block_index })

/-- `Node::get_blocks`. -/
def Node.get_blocks (n : Node) : List (Nat × Nat) :=
  n.data.blocks

/-- `Node::add_call`. -/
def Node.add_call (n : Node) (call_index : Nat) (function_index : Nat) : Node :=
  n.withData (fun d => { d with calls := insertKV d.calls call_index function_index })

/-- `Node::has_call`. -/
def Node.has_call (n : Node) (call_index : Nat) : Bool :=
  decide (call_index ∈ keysOf n.data.calls)

/-- `Node::get_calls`. -/
def Node.get_calls (n : Node) : List (Nat × Nat) :=
  n.data.calls

/-- `Node::get_constants`. -/
def Node.get_constants (n : Node) : List (Nat × Ty) :=
  n.data.constants

/-- `Node::get_internal_variables`. -/
def Node.get_internal_variables (n : Node) : List (Nat × Ty) :=
  n.data.internal_variables

/-- `Node::get_input_variables`. -/
def Node.get_input_variables (n : Node) : List (Nat × Ty) :=
  n.data.input_variables

/-- `Node::get_first_input_variable` (src/parallelize.rs lines 349-362):
the type registered at the least input-variable key, defaulting to
`AnyRef` when none exists. -/
def Node.get_first_input_variable (n : Node) : Ty :=
  match (keysOf n.data.input_variables).min? with
  | some index => (lookupKV n.data.input_variables index).getD Ty.AnyRef
  | none => Ty.AnyRef

/-- `Node::get_flow_control_couplings`. -/
def Node.get_flow_control_couplings (n : Node) : List (Nat × Nat) :=
  n.data.flow_control_couplings

/-- `Node::get_first_flow_control_coupling` (src/parallelize.rs lines
370-383): the value at the least coupling key, defaulting to 0. -/
def Node.get_first_flow_control_coupling (n : Node) : Nat :=
  match (keysOf n.data.flow_control_couplings).min? with
  | some index => (lookupKV n.data.flow_control_couplings index).getD 0
  | none => 0

/-- `Node::set_start`. -/
def Node.set_start (n : Node) (start : Nat) : Node :=
  n.withData (fun d => { d with start := start })

/-- `Node::set_end`. -/
def Node.set_end (n : Node) (e : Nat) : Node :=
  n.withData (fun d => { d with endPos := e })

/-- `Node::get_start`. -/
def Node.get_start (n : Node) : Nat :=
  n.data.start

/-- `Node::get_end`. -/
def Node.get_end (n : Node) : Nat :=
  n.data.endPos

/-- `Node::add_child`. -/
def Node.add_child (n : Node) (index : Nat) (child : Node) : Node :=
  .mk n.data (insertKV n.children index child)

/-- `Node::has_child`. -/
def Node.has_child (n : Node) (key : Nat) : Bool :=
  decide (key ∈ keysOf n.children)

/-- `Node::set_instrs`. -/
def Node.set_instrs (n : Node) (instrs : List Nat) : Node :=
  n.withData (fun d => { d with instrs := instrs })

/-- `Node::get_instrs`. -/
def Node.get_instrs (n : Node) : List Nat :=
  n.data.instrs

/-- `Node::remove_instrs` (src/parallelize.rs lines 476-490): two index
loops, the first pushing `old_instrs[i]` for `i` in `[0, start)`, the
second for `i` in `[end, old_instrs.len())`.  The Rust index panics when
`start` exceeds the length; that configuration is modelled with the
`getD` default and is excluded by the in-bounds hypotheses of the
theorems below. -/
def Node.remove_instrs (n : Node) (s : Nat) (e : Nat) : Node :=
  let old_instrs := n.get_instrs
  let new_instrs :=
    (List.range s).map (fun i => old_instrs.getD i 0) ++
    (List.range' e (old_instrs.length - e)).map (fun i => old_instrs.getD i 0)
  n.set_instrs new_instrs

/-- The mapper's mutable state (`Mapper`, src/parallelize.rs lines
496-499): the block registry and the node registry. -/
structure MapperSt where
  blocks : List (Nat × Node)
  nodes : List (Nat × Node)

/-- `Mapper::default`. -/
def MapperSt.default : MapperSt :=
  { blocks := [], nodes := [] }

/-- `Mapper::unique_block_id` (src/parallelize.rs lines 514-525): one
more than the maximum registered node key (`true_max` is 0 for an empty
registry). -/
def MapperSt.unique_block_id (st : MapperSt) : Nat :=
  maxKeyD st.nodes + 1

/-- `Mapper::add_block` (src/parallelize.rs lines 528-540): insert at
`max block key + 1`, or at 0 when the registry is empty, returning the
index used. -/
def MapperSt.add_block (st : MapperSt) (block : Node) : Nat × MapperSt :=
  let insert_index := if st.blocks.isEmpty then 0 else maxKeyD st.blocks + 1
  (insert_index, { st with blocks := insertKV st.blocks insert_index block })

/-- `Mapper::get_block` (src/parallelize.rs lines 553-555): `HashMap`
indexing, a panic when absent, modelled as an `Option`. -/
def MapperSt.get_block (st : MapperSt) (index : Nat) : Option Node :=
  lookupKV st.blocks index


/-- The decoded WASM operators, as consumed by the walker's match
(src/parallelize.rs lines 927-1711).  Families that the walker treats
identically are folded into one constructor carrying the data the arm
uses; the mapping to source arms is noted on each constructor.  Every
arm of the source match whose body neither mutates the node nor
controls the loop (the `TODO` arms, the colour-only arms including
`V128Load`/`V128Store`, `Unreachable`, `Nop`, `Drop`, `Select`,
`SetLocal`, `TeeLocal`, `MemorySize`, `MemoryGrow`, the comparison,
conversion and SIMD arms, and `GetLocal`, whose arm references
`self.id`/`self.get_input_variables()` on the `Mapper`, which has no
such members, so the arm cannot have an effect on the node) is the
`other` constructor. -/
inductive Op where
  /-- `Operator::Block { ty }`. -/
  | Block (ty : Ty)
  /-- `Operator::Loop { ty }`. -/
  | Loop (ty : Ty)
  /-- `Operator::If { ty }`. -/
  | If (ty : Ty)
  /-- `Operator::Else`. -/
  | Else
  /-- `Operator::End`. -/
  | End
  /-- `Operator::Return`. -/
  | Return
  /-- `Operator::Br { relative_depth }`. -/
  | Br (relative_depth : Nat)
  /-- `Operator::BrIf { relative_depth }`. -/
  | BrIf (relative_depth : Nat)
  /-- `Operator::BrTable { table }`: iterating the table yields the
  decoded target depths (`entries`); `buffer` is the table's raw byte
  buffer, which the arm indexes with each yielded depth. -/
  | BrTable (entries : List Nat) (buffer : List Nat)
  /-- `Operator::Call { function_index }`. -/
  | Call (function_index : Nat)
  /-- `Operator::CallIndirect { index, table_index }` (only
  `table_index` is used by the arm). -/
  | CallIndirect (table_index : Nat)
  /-- `Operator::GetGlobal { global_index }`. -/
  | GetGlobal (global_index : Nat)
  /-- `Operator::SetGlobal { global_index }`. -/
  | SetGlobal (global_index : Nat)
  /-- The scalar load family of result type `ty` with `memarg.offset`:
  `F32Load`, `F64Load`, the `I32Load*`/`I32AtomicLoad*` arms (ty I32)
  and the `I64Load*`/`I64AtomicLoad*` arms (ty I64). -/
  | LoadOp (ty : Ty) (offset : Nat)
  /-- The scalar store family of value type `ty` with `memarg.offset`:
  `F32Store`, `F64Store`, the `I32Store*`/`I32AtomicStore*` arms and
  the `I64Store*`/`I64AtomicStore*` arms. -/
  | StoreOp (ty : Ty) (offset : Nat)
  /-- The constant family: `I32Const`, `I64Const`, `F32Const`,
  `F64Const`, `V128Const`, each registering a constant of its type. -/
  | ConstOp (ty : Ty)
  /-- The arms that append `AbstractExpression::Add { ty }`: `I32Add`,
  `I64Add`, `F32Add`, `F64Add`, and the atomic rmw-add arms of I32 and
  I64 (the other scalar `Add` types do not occur). -/
  | AddArith (ty : Ty)
  /-- The arms that append `AbstractExpression::Mul { ty }`: `I32Mul`
  and `F32Mul` (`I64Mul` and `F64Mul` are `TODO` arms and fall under
  `other`). -/
  | MulArith (ty : Ty)
  /-- Every remaining arm: no effect on the node. -/
  | other
deriving DecidableEq, Repr

/-- One read of the validating operator parser
(`ValidatingOperatorParser::next` followed by `current_position()`):
either a decoded operator with the position observed after the read, or
a decode error (with the position unused by both walkers). -/
inductive ReadItem where
  | ok (op : Op) (pos : Nat)
  | err (pos : Nat)
deriving DecidableEq, Repr

/-- One function type of `resources.types()`: parameter types and
result types. -/
structure FuncSig where
  params : List Ty
  returns : List Ty
deriving DecidableEq, Repr

/-- The parser's `resources` view (`WasmModuleResources`): the type
table and the content types of the global table. -/
structure Resources where
  types : List FuncSig
  globals : List Ty
deriving DecidableEq, Repr

/-- `buf[start..end].to_vec()`: the byte slice of the module buffer,
modelled with `getD` (the Rust slice panics when out of range; the
concrete runs below stay in range). -/
def sliceBytes (buf : List Nat) (s : Nat) (e : Nat) : List Nat :=
  (List.range' s (e - s)).map (fun i => buf.getD i 0)

mutual

/-- `Mapper::map_helper` (src/parallelize.rs lines 890-1727): set the
node's start and id, run the operator loop (`walkLoop`), then slice
`buf[start..end]` into the node's instructions.  `fuel` bounds the
number of reads; `none` models exhausted fuel (the source loop never
terminates when the reader keeps failing) or a source panic. -/
def map_helper : Nat → MapperSt → List ReadItem → List Nat → Resources →
    Nat → Nat → Node → Option (MapperSt × Node × List ReadItem)
  | 0, _, _, _, _, _, _, _ => none
  | fuel+1, st, reader, buf, res, start, index, node =>
    match walkLoop fuel 0 st reader buf res start
        ((node.set_start start).set_id index) with
    | none => none
    | some (st1, nd, rest) =>
        some (st1, nd.set_instrs (sliceBytes buf start nd.get_end), rest)

/-- The operator loop of `Mapper::map_helper` (src/parallelize.rs lines
902-1720).  `i` is the read counter (incremented to `i + 1` before each
operator is processed), the head of `stream` is the next read, and the
position recorded with an `ok` read is the parser's
`current_position()` for that operator.  A decode error is printed and
the loop continues with the next read (lines 1714-1719).  An exhausted
stream is `none`: the real reader would keep returning errors and the
loop would never terminate. -/
def walkLoop : Nat → Nat → MapperSt → List ReadItem → List Nat → Resources →
    Nat → Node → Option (MapperSt × Node × List ReadItem)
  | 0, _, _, _, _, _, _, _ => none
  | _+1, _, _, [], _, _, _, _ => none
  | fuel+1, i, st, item :: rest, buf, res, start, node =>
    match item with
    | .err _ =>
        -- "Bad wasm code ..." is printed and the loop continues.
        walkLoop fuel (i + 1) st rest buf res start node
    | .ok op position =>
      let i' := i + 1
      match op with
      | .Block _ =>
          -- blocks are walked recursively from the current position and
          -- registered in the mapper's block registry
          match map_helper fuel st rest buf res position i' Node.default with
          | none => none
          | some (st1, block_node, rest1) =>
            let (block_id, st2) := st1.add_block block_node
            walkLoop fuel i' st2 rest1 buf res start (node.add_block i' block_id)
      | .Loop _ =>
          -- loops are registered exactly like blocks
          match map_helper fuel st rest buf res position i' Node.default with
          | none => none
          | some (st1, loop_node, rest1) =>
            let (loop_id, st2) := st1.add_block loop_node
            walkLoop fuel i' st2 rest1 buf res start (node.add_block i' loop_id)
      | .If ty =>
          let conditional_node := Node.default
          let (outer_var_id, node1) := node.add_internal_variable i' ty
          let (inner_var_id, conditional_node1) := conditional_node.add_input_variable ty
          let conditional_node2 :=
            conditional_node1.add_flow_control_coupling outer_var_id inner_var_id
          match map_helper fuel st rest buf res position i' conditional_node2 with
          | none => none
          | some (st1, conditional_node3, rest1) =>
            let (conditional_id, st2) := st1.add_block conditional_node3
            let node2 := node1.add_block i' conditional_id
            let node3 := node2.add_operation i' (.Spin outer_var_id)
            -- the source then adds `Spin { inner_var_id }` to its local
            -- copy of the conditional node, after that copy was already
            -- registered; the mutated local is dropped, so the write has
            -- no observable effect
            walkLoop fuel i' st2 rest1 buf res start node3
      | .Else =>
          let couplings := node.get_flow_control_couplings
          let coupling_count := couplings.length
          let input_variables := node.get_input_variables
          let input_variable_count := input_variables.length
          -- the else clause is processed only inside an if-clause context,
          -- detected by exactly one coupling and one input variable
          if coupling_count = 1 ∧ input_variable_count = 1 then
            let Spind_var_id := node.get_first_flow_control_coupling
            let input_type := node.get_first_input_variable
            let else_node := Node.default
            let (inner_var_id, else_node1) := else_node.add_input_variable input_type
            let else_node2 := else_node1.add_flow_control_coupling Spind_var_id inner_var_id
            match map_helper fuel st rest buf res position i' else_node2 with
            | none => none
            | some (st1, else_node3, rest1) =>
              -- the else's end also terminates the if clause
              let node1 := node.set_end else_node3.get_end
              let (else_id, st2) := st1.add_block else_node3
              let node2 := node1.add_block i' else_id
              some (st2, node2, rest1)
          else
            walkLoop fuel i' st rest buf res start node
      | .End | .Return =>
          -- a function node's end was preset from the body range; a zero
          -- end means it was not set and is deduced from the position
          let node1 := if node.get_end = 0 then node.set_end (position + start) else node
          some (st, node1, rest)
      | .Br relative_depth =>
          walkLoop fuel i' st rest buf res start (node.add_branch i' relative_depth)
      | .BrIf relative_depth =>
          walkLoop fuel i' st rest buf res start (node.add_branch i' relative_depth)
      | .BrTable entries buffer =>
          -- every entry is inserted at the same key i', each overwriting
          -- the previous, with value `table.buffer[relative_depth]`
          walkLoop fuel i' st rest buf res start
            (entries.foldl (fun nd relative_depth =>
              nd.add_branch i' (buffer.getD relative_depth 0)) node)
      | .Call function_index =>
          walkLoop fuel i' st rest buf res start (node.add_call i' function_index)
      | .CallIndirect table_index =>
          walkLoop fuel i' st rest buf res start (node.add_call i' table_index)
      | .GetGlobal global_index =>
          let (var_id, node1) :=
            node.add_input_variable (res.globals.getD global_index Ty.AnyRef)
          walkLoop fuel i' st rest buf res start
            (node1.add_global_input_data_coupling global_index var_id)
      | .SetGlobal global_index =>
          let (var_id, node1) :=
            node.add_output_variable (res.globals.getD global_index Ty.AnyRef)
          walkLoop fuel i' st rest buf res start
            (node1.add_global_output_data_coupling global_index var_id)
      | .LoadOp ty offset =>
          let (var_id, node1) := node.add_input_variable ty
          walkLoop fuel i' st rest buf res start
            (node1.add_input_data_coupling offset var_id)
      | .StoreOp ty offset =>
          let (var_id, node1) := node.add_output_variable ty
          walkLoop fuel i' st rest buf res start
            (node1.add_output_data_coupling offset var_id)
      | .ConstOp ty =>
          walkLoop fuel i' st rest buf res start (node.add_constant ty).2
      | .AddArith ty =>
          walkLoop fuel i' st rest buf res start (node.add_operation i' (.Add ty))
      | .MulArith ty =>
          walkLoop fuel i' st rest buf res start (node.add_operation i' (.Mul ty))
      | .other =>
          walkLoop fuel i' st rest buf res start node

end


/-- The `Node` of the earlier walker in src/flow_mapper.rs (lines
21-28).  Its `children` field is never touched by that walker and is
omitted here; only the walker of that file is needed below. -/
structure FNode where
  instrs : List Nat
  branches : List (Nat × Nat)
  calls : List (Nat × Nat)
  start : Nat
  endPos : Nat
deriving DecidableEq, Repr

/-- `Node::default` of src/flow_mapper.rs. -/
def FNode.default : FNode :=
  { instrs := [], branches := [], calls := [], start := 0, endPos := 0 }

/-- `Node::add_branch` of src/flow_mapper.rs. -/
def FNode.add_branch (n : FNode) (branch_index : Nat) (relative_depth : Nat) : FNode :=
  { n with branches := insertKV n.branches branch_index relative_depth }

/-- `Node::has_branch` of src/flow_mapper.rs. -/
def FNode.has_branch (n : FNode) (branch_index : Nat) : Bool :=
  decide (branch_index ∈ keysOf n.branches)

/-- `Node::add_call` of src/flow_mapper.rs. -/
def FNode.add_call (n : FNode) (call_index : Nat) (function_index : Nat) : FNode :=
  { n with calls := insertKV n.calls call_index function_index }

/-- `Node::has_call` of src/flow_mapper.rs. -/
def FNode.has_call (n : FNode) (call_index : Nat) : Bool :=
  decide (call_index ∈ keysOf n.calls)

/-- `Node::set_start` of src/flow_mapper.rs. -/
def FNode.set_start (n : FNode) (start : Nat) : FNode :=
  { n with start := start }

/-- `Node::set_end` of src/flow_mapper.rs. -/
def FNode.set_end (n : FNode) (e : Nat) : FNode :=
  { n with endPos := e }

/-- The operator loop of `Mapper::map_helper` in src/flow_mapper.rs
(lines 240-839).  That walker never recurses; `Block`, `Loop`, `If` and
`Else` are no-ops there.  On a decode error it panics
(`panic!("Bad wasm code ...")`, lines 832-835), modelled as
`Except.error ()`; an exhausted reader is likewise an error read.  On a
terminator it records `i` (the read count, not a byte position) as the
node's end.  The dead `process_next_line`/`cont` flags of the source
(never changed from `true`) are omitted. -/
def fwalkLoop : Nat → FNode → List ReadItem → Except Unit (FNode × List ReadItem)
  | _, _, [] => .error ()
  | i, node, item :: rest =>
    match item with
    | .err _ => .error ()
    | .ok op _ =>
      let i' := i + 1
      match op with
      | .End | .Return => .ok (node.set_end i', rest)
      | .Br relative_depth =>
          fwalkLoop i' (if node.has_branch i' then node else node.add_branch i' relative_depth) rest
      | .BrIf relative_depth =>
          fwalkLoop i' (if node.has_branch i' then node else node.add_branch i' relative_depth) rest
      | .BrTable entries buffer =>
          fwalkLoop i' (entries.foldl (fun nd relative_depth =>
            nd.add_branch i' (buffer.getD relative_depth 0)) node) rest
      | .Call function_index =>
          fwalkLoop i' (if node.has_call i' then node else node.add_call i' function_index) rest
      | .CallIndirect table_index =>
          fwalkLoop i' (if node.has_call i' then node else node.add_call i' table_index) rest
      | _ => fwalkLoop i' node rest

/-- `Mapper::map_helper` of src/flow_mapper.rs (lines 227-841): a fresh
default node with the body range preset, then the operator loop. -/
def fmap_helper (func_start : Nat) (func_end : Nat) (reader : List ReadItem) :
    Except Unit (FNode × List ReadItem) :=
  fwalkLoop 0 ((FNode.default.set_start func_start).set_end func_end) reader


mutual

/-- `Mapper::expand_func_tree_helper` (src/parallelize.rs lines
817-887): first the blocks loop (normalize each recorded inline block
to a call edge, a child and a registered node), then the node is
re-inserted into the local tree, then the calls loop (attach callees,
skipping self references, reference loops and already-present
children).  The source's final re-insertion into the local `tree` is
dropped along with `tree` itself; the mutated mapper state and the
expanded node are returned.  Fuel is consumed at every step; `none`
models exhausted fuel or a source panic (a missing registry or tree
key). -/
def expand_func_tree_helper : Nat → MapperSt → Node → Nat →
    List (Nat × Node) → List (Nat × Node) → Option (MapperSt × Node)
  | 0, _, _, _, _, _ => none
  | fuel+1, st, func, node_id, nodes, path_nodes =>
      match funcBlocksLoop fuel st func node_id nodes path_nodes func.get_blocks with
      | none => none
      | some (st1, func1, path1) =>
        let tree1 := insertKV (removeKV nodes node_id) node_id func1
        match funcCallsLoop fuel st1 func1 node_id tree1 path1 func1.get_calls with
        | none => none
        | some (st2, func2, _) => some (st2, func2)
termination_by structural fuel _ _ _ _ _ => fuel

/-- The blocks loop of `expand_func_tree_helper` (src/parallelize.rs
lines 821-843).  For each `(start, index)` recorded in the function's
`blocks`: fetch the block from the registry, allocate
`unique_block_id`, add a call edge at `start`, insert the current
function into `path_nodes`, recursively expand the block under the new
id, attach the result as a child, and register the un-expanded block
under the new id in the node registry.  The `path_nodes` insertions
persist into the subsequent calls loop. -/
def funcBlocksLoop : Nat → MapperSt → Node → Nat → List (Nat × Node) →
    List (Nat × Node) → List (Nat × Nat) →
    Option (MapperSt × Node × List (Nat × Node))
  | 0, _, _, _, _, _, _ => none
  | _+1, st, func, _, _, path_nodes, [] => some (st, func, path_nodes)
  | fuel+1, st, func, node_id, tree, path_nodes, (start, index) :: rest =>
      match st.get_block index with
      | none => none
      | some block =>
        let block_id := st.unique_block_id
        let func1 := func.add_call start block_id
        let path1 := insertKV path_nodes node_id func1
        match expand_block_tree_helper fuel st block block_id tree path1 with
        | none => none
        | some (st1, child) =>
          let func2 := func1.add_child block_id child
          let st2 := { st1 with nodes := insertKV st1.nodes block_id block }
          funcBlocksLoop fuel st2 func2 node_id tree path1 rest
termination_by structural fuel _ _ _ _ _ _ => fuel

/-- The calls loop of `expand_func_tree_helper` (src/parallelize.rs
lines 850-881).  For each `(call, index)` in the function's `calls`:
skip a self reference (`index == node_id`), skip a reference loop
(`index` already in `path_nodes`), skip an already-registered child;
otherwise insert the current function into `path_nodes`, recursively
expand `tree[index]` (a panic when absent, modelled as `none`) and
attach the result as a child keyed by `index`. -/
def funcCallsLoop : Nat → MapperSt → Node → Nat → List (Nat × Node) →
    List (Nat × Node) → List (Nat × Nat) →
    Option (MapperSt × Node × List (Nat × Node))
  | 0, _, _, _, _, _, _ => none
  | _+1, st, func, _, _, path_nodes, [] => some (st, func, path_nodes)
  | fuel+1, st, func, node_id, tree, path_nodes, (_, index) :: rest =>
      if index = node_id then
        funcCallsLoop fuel st func node_id tree path_nodes rest
      else if index ∈ keysOf path_nodes then
        funcCallsLoop fuel st func node_id tree path_nodes rest
      else if func.has_child index then
        funcCallsLoop fuel st func node_id tree path_nodes rest
      else
        let path1 := insertKV path_nodes node_id func
        match lookupKV tree index with
        | none => none
        | some target =>
          match expand_func_tree_helper fuel st target index tree path1 with
          | none => none
          | some (st1, child) =>
            funcCallsLoop fuel st1 (func.add_child index child) node_id tree path1 rest
termination_by structural fuel _ _ _ _ _ _ => fuel

/-- `Mapper::expand_block_tree_helper` (src/parallelize.rs lines
750-814): the inner-blocks loop, then re-insertion into the local tree,
then the calls loop (which, unlike the function variant, has no
self-reference check). -/
def expand_block_tree_helper : Nat → MapperSt → Node → Nat →
    List (Nat × Node) → List (Nat × Node) → Option (MapperSt × Node)
  | 0, _, _, _, _, _ => none
  | fuel+1, st, block, node_id, nodes, path_nodes =>
      match blockBlocksLoop fuel st block node_id nodes path_nodes block.get_blocks with
      | none => none
      | some (st1, block1) =>
        let tree1 := insertKV (removeKV nodes node_id) node_id block1
        match blockCallsLoop fuel st1 block1 node_id tree1 path_nodes block1.get_calls with
        | none => none
        | some (st2, block2, _) => some (st2, block2)
termination_by structural fuel _ _ _ _ _ => fuel

/-- The inner-blocks loop of `expand_block_tree_helper`
(src/parallelize.rs lines 754-777).  For each `(start, index)` in the
block's `blocks`: fetch the inner block, allocate `unique_block_id`,
splice the inner block's bytes out of the outer block
(`remove_instrs(start, inner_block_end)`), add a call edge at `start`,
recursively expand the inner block — under its registry index, and
with `path_nodes` passed on unchanged — attach the result as a child,
and register the un-expanded inner block.  This loop never inserts into
`path_nodes`. -/
def blockBlocksLoop : Nat → MapperSt → Node → Nat → List (Nat × Node) →
    List (Nat × Node) → List (Nat × Nat) → Option (MapperSt × Node)
  | 0, _, _, _, _, _, _ => none
  | _+1, st, block, _, _, _, [] => some (st, block)
  | fuel+1, st, block, node_id, tree, path_nodes, (start, index) :: rest =>
      match st.get_block index with
      | none => none
      | some inner_block =>
        let block_id := st.unique_block_id
        let inner_block_end := inner_block.get_end
        let block1 := block.remove_instrs start inner_block_end
        let block2 := block1.add_call start block_id
        match expand_block_tree_helper fuel st inner_block index tree path_nodes with
        | none => none
        | some (st1, child) =>
          let block3 := block2.add_child block_id child
          let st2 := { st1 with nodes := insertKV st1.nodes block_id inner_block }
          blockBlocksLoop fuel st2 block3 node_id tree path_nodes rest
termination_by structural fuel _ _ _ _ _ _ => fuel

/-- The calls loop of `expand_block_tree_helper` (src/parallelize.rs
lines 784-808): like the function variant but without the
self-reference check. -/
def blockCallsLoop : Nat → MapperSt → Node → Nat → List (Nat × Node) →
    List (Nat × Node) → List (Nat × Nat) →
    Option (MapperSt × Node × List (Nat × Node))
  | 0, _, _, _, _, _, _ => none
  | _+1, st, block, _, _, path_nodes, [] => some (st, block, path_nodes)
  | fuel+1, st, block, node_id, tree, path_nodes, (_, index) :: rest =>
      if index ∈ keysOf path_nodes then
        blockCallsLoop fuel st block node_id tree path_nodes rest
      else if block.has_child index then
        blockCallsLoop fuel st block node_id tree path_nodes rest
      else
        let path1 := insertKV path_nodes node_id block
        match lookupKV tree index with
        | none => none
        | some target =>
          match expand_func_tree_helper fuel st target index tree path1 with
          | none => none
          | some (st1, child) =>
            blockCallsLoop fuel st1 (block.add_child index child) node_id tree path1 rest
termination_by structural fuel _ _ _ _ _ _ => fuel

end

/-- A ghost record of one recursive invocation made by the tree
expander: the node id the callee frame is invoked with, whether the
invocation came from a calls loop (`true`) or from a blocks loop
(`false`), and the key set of the `path_nodes` map passed to the
callee. -/
structure ExpEv where
  callee : Nat
  isCallEdge : Bool
  passedPath : List Nat
deriving DecidableEq, Repr

mutual

/-- `expand_func_tree_helper` instrumented with a ghost log of the
recursive invocations it makes (depth-first order).  The computed state
and node are exactly those of `expand_func_tree_helper`; only the event
list is added. -/
def expandFuncT : Nat → MapperSt → Node → Nat →
    List (Nat × Node) → List (Nat × Node) → Option (MapperSt × Node × List ExpEv)
  | 0, _, _, _, _, _ => none
  | fuel+1, st, func, node_id, nodes, path_nodes =>
      match funcBlocksLoopT fuel st func node_id nodes path_nodes func.get_blocks with
      | none => none
      | some (st1, func1, path1, evs1) =>
        let tree1 := insertKV (removeKV nodes node_id) node_id func1
        match funcCallsLoopT fuel st1 func1 node_id tree1 path1 func1.get_calls with
        | none => none
        | some (st2, func2, _, evs2) => some (st2, func2, evs1 ++ evs2)
termination_by structural fuel _ _ _ _ _ => fuel

/-- The blocks loop of `expandFuncT`: as `funcBlocksLoop`, logging the
recursive block expansion with the path it passes. -/
def funcBlocksLoopT : Nat → MapperSt → Node → Nat → List (Nat × Node) →
    List (Nat × Node) → List (Nat × Nat) →
    Option (MapperSt × Node × List (Nat × Node) × List ExpEv)
  | 0, _, _, _, _, _, _ => none
  | _+1, st, func, _, _, path_nodes, [] => some (st, func, path_nodes, [])
  | fuel+1, st, func, node_id, tree, path_nodes, (start, index) :: rest =>
      match st.get_block index with
      | none => none
      | some block =>
        let block_id := st.unique_block_id
        let func1 := func.add_call start block_id
        let path1 := insertKV path_nodes node_id func1
        match expandBlockT fuel st block block_id tree path1 with
        | none => none
        | some (st1, child, evs1) =>
          let func2 := func1.add_child block_id child
          let st2 := { st1 with nodes := insertKV st1.nodes block_id block }
          match funcBlocksLoopT fuel st2 func2 node_id tree path1 rest with
          | none => none
          | some (st3, func3, path3, evs2) =>
            some (st3, func3, path3, ⟨block_id, false, keysOf path1⟩ :: evs1 ++ evs2)
termination_by structural fuel _ _ _ _ _ _ => fuel

/-- The calls loop of `expandFuncT`: as `funcCallsLoop`, logging the
recursive callee expansion with the path it passes. -/
def funcCallsLoopT : Nat → MapperSt → Node → Nat → List (Nat × Node) →
    List (Nat × Node) → List (Nat × Nat) →
    Option (MapperSt × Node × List (Nat × Node) × List ExpEv)
  | 0, _, _, _, _, _, _ => none
  | _+1, st, func, _, _, path_nodes, [] => some (st, func, path_nodes, [])
  | fuel+1, st, func, node_id, tree, path_nodes, (_, index) :: rest =>
      if index = node_id then
        funcCallsLoopT fuel st func node_id tree path_nodes rest
      else if index ∈ keysOf path_nodes then
        funcCallsLoopT fuel st func node_id tree path_nodes rest
      else if func.has_child index then
        funcCallsLoopT fuel st func node_id tree path_nodes rest
      else
        let path1 := insertKV path_nodes node_id func
        match lookupKV tree index with
        | none => none
        | some target =>
          match expandFuncT fuel st target index tree path1 with
          | none => none
          | some (st1, child, evs1) =>
            match funcCallsLoopT fuel st1 (func.add_child index child) node_id tree path1 rest with
            | none => none
            | some (st2, func2, path2, evs2) =>
              some (st2, func2, path2, ⟨index, true, keysOf path1⟩ :: evs1 ++ evs2)
termination_by structural fuel _ _ _ _ _ _ => fuel

/-- `expand_block_tree_helper` instrumented with the ghost log. -/
def expandBlockT : Nat → MapperSt → Node → Nat →
    List (Nat × Node) → List (Nat × Node) → Option (MapperSt × Node × List ExpEv)
  | 0, _, _, _, _, _ => none
  | fuel+1, st, block, node_id, nodes, path_nodes =>
      match blockBlocksLoopT fuel st block node_id nodes path_nodes block.get_blocks with
      | none => none
      | some (st1, block1, evs1) =>
        let tree1 := insertKV (removeKV nodes node_id) node_id block1
        match blockCallsLoopT fuel st1 block1 node_id tree1 path_nodes block1.get_calls with
        | none => none
        | some (st2, block2, _, evs2) => some (st2, block2, evs1 ++ evs2)
termination_by structural fuel _ _ _ _ _ => fuel

/-- The inner-blocks loop of `expandBlockT`: as `blockBlocksLoop`,
logging the recursive inner-block expansion — which receives
`path_nodes` unchanged. -/
def blockBlocksLoopT : Nat → MapperSt → Node → Nat → List (Nat × Node) →
    List (Nat × Node) → List (Nat × Nat) → Option (MapperSt × Node × List ExpEv)
  | 0, _, _, _, _, _, _ => none
  | _+1, st, block, _, _, _, [] => some (st, block, [])
  | fuel+1, st, block, node_id, tree, path_nodes, (start, index) :: rest =>
      match st.get_block index with
      | none => none
      | some inner_block =>
        let block_id := st.unique_block_id
        let inner_block_end := inner_block.get_end
        let block1 := block.remove_instrs start inner_block_end
        let block2 := block1.add_call start block_id
        match expandBlockT fuel st inner_block index tree path_nodes with
        | none => none
        | some (st1, child, evs1) =>
          let block3 := block2.add_child block_id child
          let st2 := { st1 with nodes := insertKV st1.nodes block_id inner_block }
          match blockBlocksLoopT fuel st2 block3 node_id tree path_nodes rest with
          | none => none
          | some (st3, block4, evs2) =>
            some (st3, block4, ⟨index, false, keysOf path_nodes⟩ :: evs1 ++ evs2)
termination_by structural fuel _ _ _ _ _ _ => fuel

/-- The calls loop of `expandBlockT`. -/
def blockCallsLoopT : Nat → MapperSt → Node → Nat → List (Nat × Node) →
    List (Nat × Node) → List (Nat × Nat) →
    Option (MapperSt × Node × List (Nat × Node) × List ExpEv)
  | 0, _, _, _, _, _, _ => none
  | _+1, st, block, _, _, path_nodes, [] => some (st, block, path_nodes, [])
  | fuel+1, st, block, node_id, tree, path_nodes, (_, index) :: rest =>
      if index ∈ keysOf path_nodes then
        blockCallsLoopT fuel st block node_id tree path_nodes rest
      else if block.has_child index then
        blockCallsLoopT fuel st block node_id tree path_nodes rest
      else
        let path1 := insertKV path_nodes node_id block
        match lookupKV tree index with
        | none => none
        | some target =>
          match expandFuncT fuel st target index tree path1 with
          | none => none
          | some (st1, child, evs1) =>
            match blockCallsLoopT fuel st1 (block.add_child index child) node_id tree path1 rest with
            | none => none
            | some (st2, block2, path2, evs2) =>
              some (st2, block2, path2, ⟨index, true, keysOf path1⟩ :: evs1 ++ evs2)
termination_by structural fuel _ _ _ _ _ _ => fuel

end

/-- One variable registration on a node, for reasoning about arbitrary
interleavings of the four registration methods of `Node`
(src/parallelize.rs lines 242-266).  The `intern` command carries the
caller-supplied step argument of `add_internal_variable`. -/
inductive RegCmd where
  | inp (ty : Ty)
  | outp (ty : Ty)
  | cst (ty : Ty)
  | intern (i : Nat) (ty : Ty)
deriving DecidableEq, Repr

/-- Apply a sequence of variable registrations to a node, dropping the
returned ids (as the walker frequently does). -/
def applyRegs : Node → List RegCmd → Node
  | n, [] => n
  | n, .inp ty :: cs => applyRegs (n.add_input_variable ty).2 cs
  | n, .outp ty :: cs => applyRegs (n.add_output_variable ty).2 cs
  | n, .cst ty :: cs => applyRegs (n.add_constant ty).2 cs
  | n, .intern i ty :: cs => applyRegs (n.add_internal_variable i ty).2 cs

/-- The number of input-variable registrations in a command list. -/
def countInp (cmds : List RegCmd) : Nat :=
  cmds.countP fun c => match c with | .inp _ => true | _ => false

/-- The number of output-variable registrations in a command list. -/
def countOutp (cmds : List RegCmd) : Nat :=
  cmds.countP fun c => match c with | .outp _ => true | _ => false

/-- The number of constant registrations in a command list. -/
def countCst (cmds : List RegCmd) : Nat :=
  cmds.countP fun c => match c with | .cst _ => true | _ => false

/-- The number of internal-variable registrations in a command list. -/
def countIntern (cmds : List RegCmd) : Nat :=
  cmds.countP fun c => match c with | .intern _ _ => true | _ => false

/-- The step keys of the internal-variable registrations, in order. -/
def internKeys (cmds : List RegCmd) : List Nat :=
  cmds.filterMap fun c => match c with | .intern i _ => some i | _ => none

/-- Concrete input for C5 and the C5 witness: a walked function node (id
0) that recorded one inline block, at instruction key 3, with block
registry index 0. -/
def funcC5 : Node := Node.default.add_block 3 0

/-- The block registry for `funcC5`: the single recorded block. -/
def stC5 : MapperSt := { blocks := [(0, Node.default.set_end 2)], nodes := [(0, funcC5)] }

/-- Concrete input for the C9 counterexample: the innermost walked
block — three instruction bytes, `end = 3`. -/
def innerB9 : Node := (Node.default.set_instrs [20, 21, 22]).set_end 3

/-- Concrete input for the C9 counterexample: a walked block that
recorded the inner block (registry index 0) at key 2 — the shape the
walker produces for `(block (block ...))`.  Its six instruction bytes
keep the expansion's `remove_instrs(2, 3)` splice in bounds (the first
copy loop indexes `[0, 2)` of a length-6 vector), so the embedding
coincides with the Rust indexing along this run. -/
def outerB9 : Node :=
  ((Node.default.set_instrs [10, 11, 12, 13, 14, 15]).set_end 6).add_block 2 0

/-- Concrete input for the C9 counterexample: a walked function (id 0)
that recorded the outer block (registry index 1) at key 3 (the
function blocks loop performs no `remove_instrs`). -/
def funcC9 : Node :=
  ((Node.default.set_instrs [1, 2, 3, 4, 5, 6, 7, 8, 9]).set_end 9).add_block 3 1

/-- The mapper state for the C9 counterexample: the two walked blocks in
the block registry and the function in the node registry. -/
def stC9 : MapperSt := { blocks := [(0, innerB9), (1, outerB9)], nodes := [(0, funcC9)] }

/-- A self-referential block registry entry for C9: a block, registered
at index 0, whose `blocks` map records a block at registry index 0 —
its own entry.  Its five instruction bytes (`end = 5`) keep every
`remove_instrs(2, 5)` splice of the expansion in bounds: each recursion
level fetches the pristine length-5 block from the registry and splices
it, indexing only `[0, 2)`, so the real program loops forever without
panicking, exactly as the fueled embedding computes. -/
def cycB : Node :=
  ((Node.default.set_instrs [30, 31, 32, 33, 34]).set_end 5).add_block 2 0

/-- The mapper state holding only the self-referential block `cycB`. -/
def stCyc : MapperSt := { blocks := [(0, cycB)], nodes := [] }

/-- The result of expanding `funcC5` (used by the C5 witness): the
mapper state and node that `expand_func_tree_helper` computes on the
C5 configuration. -/
def c5wRes : MapperSt × Node :=
  (expand_func_tree_helper 10 stC5 funcC5 0 [] []).getD (MapperSt.default, Node.default)


/-! ## Supporting lemmas -/

theorem Node.data_withData (f : NodeData → NodeData) (n : Node) :
    (n.withData f).data = f n.data := by
  cases n; rfl

theorem Node.children_withData (f : NodeData → NodeData) (n : Node) :
    (n.withData f).children = n.children := by
  cases n; rfl

theorem Node.get_blocks_add_call (n : Node) (a b : Nat) :
    (n.add_call a b).get_blocks = n.get_blocks := by
  cases n; rfl

theorem Node.get_blocks_add_child (n : Node) (a : Nat) (c : Node) :
    (n.add_child a c).get_blocks = n.get_blocks := by
  cases n; rfl

theorem Node.get_blocks_remove_instrs (n : Node) (s e : Nat) :
    (n.remove_instrs s e).get_blocks = n.get_blocks := by
  cases n; rfl

theorem length_insertKV_le {α : Type} (m : List (Nat × α)) (k : Nat) (v : α) :
    (insertKV m k v).length ≤ m.length + 1 := by
  unfold insertKV
  split
  · simp
  · simp

theorem insertKV_of_not_mem {α : Type} {m : List (Nat × α)} {k : Nat} (v : α)
    (h : k ∉ keysOf m) : insertKV m k v = m ++ [(k, v)] := by
  unfold insertKV keysOf at *
  rw [if_neg h]

theorem length_insertKV_of_not_mem {α : Type} {m : List (Nat × α)} {k : Nat} (v : α)
    (h : k ∉ keysOf m) : (insertKV m k v).length = m.length + 1 := by
  rw [insertKV_of_not_mem v h]
  simp

theorem keysOf_insertKV_of_not_mem {α : Type} {m : List (Nat × α)} {k : Nat} (v : α)
    (h : k ∉ keysOf m) : keysOf (insertKV m k v) = keysOf m ++ [k] := by
  rw [insertKV_of_not_mem v h]
  simp [keysOf]

theorem Node.get_instrs_set_instrs (n : Node) (l : List Nat) :
    (n.set_instrs l).get_instrs = l := by
  cases n; rfl

theorem map_range_getD (xs : List Nat) (s : Nat) (h : s ≤ xs.length) :
    (List.range s).map (fun i => xs.getD i 0) = xs.take s := by
  apply List.ext_getElem
  · simp [Nat.min_eq_left h]
  · intro i h1 h2
    simp only [List.getElem_map, List.getElem_range, List.getElem_take]
    rw [List.getD_eq_getElem]

theorem map_range'_getD (xs : List Nat) (e : Nat) :
    (List.range' e (xs.length - e)).map (fun i => xs.getD i 0) = xs.drop e := by
  apply List.ext_getElem
  · simp
  · intro i h1 h2
    simp only [List.getElem_map, List.getElem_range'_1, List.getElem_drop]
    rw [List.getD_eq_getElem]

/-! ## The claims -/

/-- C10 — confirmed.  For every `Node` with instruction list of length
`n` and indices `start ≤ end ≤ n`, `remove_instrs(start, end)` leaves
`instrs` equal to the first `start` original bytes followed by the
original bytes from index `end` on (so the new length is
`n - (end - start)`), and modifies nothing else: the result is exactly
the original node with only its `instrs` field replaced
(`set_instrs` replaces only that field), and in particular the `calls`
map and the children are untouched. -/
theorem c10_remove_instrs (n : Node) (s e : Nat) (h1 : s ≤ e)
    (h2 : e ≤ n.get_instrs.length) :
    n.remove_instrs s e = n.set_instrs (n.get_instrs.take s ++ n.get_instrs.drop e) ∧
    (n.remove_instrs s e).get_instrs.length = n.get_instrs.length - (e - s) ∧
    (n.remove_instrs s e).data.calls = n.data.calls ∧
    (n.remove_instrs s e).children = n.children := by
  have hs : s ≤ n.get_instrs.length := le_trans h1 h2
  have hA := map_range_getD n.get_instrs s hs
  have hB := map_range'_getD n.get_instrs e
  refine ⟨?_, ?_, ?_, ?_⟩
  · simp only [Node.remove_instrs]
    rw [hA, hB]
  · simp only [Node.remove_instrs]
    rw [Node.get_instrs_set_instrs, hA, hB]
    simp only [List.length_append, List.length_take, List.length_drop]
    omega
  · cases n; rfl
  · cases n; rfl

/-- Witness for C10 at `instrs = [4, 5, 6, 7, 8]`, `start = 1`,
`end = 3`. -/
theorem c10_remove_instrs_witness :
    (Node.default.set_instrs [4, 5, 6, 7, 8]).remove_instrs 1 3 =
      (Node.default.set_instrs [4, 5, 6, 7, 8]).set_instrs
        ((Node.default.set_instrs [4, 5, 6, 7, 8]).get_instrs.take 1 ++
         (Node.default.set_instrs [4, 5, 6, 7, 8]).get_instrs.drop 3) ∧
    ((Node.default.set_instrs [4, 5, 6, 7, 8]).remove_instrs 1 3).get_instrs.length =
      (Node.default.set_instrs [4, 5, 6, 7, 8]).get_instrs.length - (3 - 1) ∧
    ((Node.default.set_instrs [4, 5, 6, 7, 8]).remove_instrs 1 3).data.calls =
      (Node.default.set_instrs [4, 5, 6, 7, 8]).data.calls ∧
    ((Node.default.set_instrs [4, 5, 6, 7, 8]).remove_instrs 1 3).children =
      (Node.default.set_instrs [4, 5, 6, 7, 8]).children :=
  c10_remove_instrs (Node.default.set_instrs [4, 5, 6, 7, 8]) 1 3
    (by decide) (by decide)

theorem mem_keysOf_insertKV {α : Type} (m : List (Nat × α)) (k : Nat) (v : α) :
    k ∈ keysOf (insertKV m k v) := by
  by_cases h : k ∈ keysOf m
  · unfold insertKV keysOf at *
    rw [if_pos h]
    rcases List.mem_map.1 h with ⟨p, hp, hpk⟩
    rw [List.map_map]
    exact List.mem_map.2 ⟨p, hp, by simp [hpk]⟩
  · rw [insertKV_of_not_mem v h]
    unfold keysOf
    simp

theorem length_insertKV_of_mem {α : Type} {m : List (Nat × α)} {k : Nat} (v : α)
    (h : k ∈ keysOf m) : (insertKV m k v).length = m.length := by
  unfold insertKV keysOf at *
  rw [if_pos h]
  simp

theorem foldl_insertKV_length_of_mem {α : Type} (es : List Nat) (k : Nat) (f : Nat → α) :
    ∀ m : List (Nat × α), k ∈ keysOf m →
      (es.foldl (fun m d => insertKV m k (f d)) m).length = m.length := by
  induction es with
  | nil => intro m _; rfl
  | cons d ds ih =>
    intro m h
    rw [List.foldl_cons, ih _ (mem_keysOf_insertKV m k (f d))]
    exact length_insertKV_of_mem _ h

theorem foldl_insertKV_length_le {α : Type} (es : List Nat) (k : Nat) (f : Nat → α)
    (m : List (Nat × α)) :
    (es.foldl (fun m d => insertKV m k (f d)) m).length ≤ m.length + 1 := by
  cases es with
  | nil => simp
  | cons d ds =>
    rw [List.foldl_cons,
        foldl_insertKV_length_of_mem ds k f _ (mem_keysOf_insertKV m k (f d))]
    exact length_insertKV_le m k (f d)

theorem branches_foldl_add_branch (es : List Nat) (i : Nat) (f : Nat → Nat) :
    ∀ nd : Node, (es.foldl (fun nd d => nd.add_branch i (f d)) nd).data.branches =
      es.foldl (fun m d => insertKV m i (f d)) nd.data.branches := by
  induction es with
  | nil => intro nd; rfl
  | cons d ds ih =>
    intro nd
    rw [List.foldl_cons, List.foldl_cons, ih]
    congr 1
    cases nd; rfl

/-- C1 — counterexample.  The claim says every `calls` entry is keyed by
the operator parser's byte position at the call instruction.  In the
walked stream below the parser's `current_position()` at the `Call`
operator is 5, yet the node's `calls` has no entry at key 5: the single
entry sits at key 1, the walker's read ordinal.  (The source records
`node.add_call(i, ...)`, src/parallelize.rs lines 1070-1076, with `i`
the read counter, not the `position` computed at line 911.) -/
theorem c1_counterexample :
    (map_helper 5 MapperSt.default [.ok (.Call 0) 5, .ok .End 6] (List.range 10)
        ⟨[], []⟩ 0 0 Node.default).map
      (fun r => (lookupKV r.2.1.get_calls 5, lookupKV r.2.1.get_calls 1,
                 r.2.1.get_calls)) =
    some (none, some 0, [(1, 0)]) := by decide

/-- C1 — amended.  Each entry the walker records in `calls` is keyed by
the walker's read ordinal `i` (1-based read count) at the call
instruction — for `Call { func_index }` with value the callee's
function index, for `CallIndirect` with value the table index — and
the recorded key is independent of the operator parser's current byte
position `p`. -/
theorem c1_amended_calls_keyed_by_ordinal :
    (∀ (fuel i : Nat) (st : MapperSt) (rest : List ReadItem) (buf : List Nat)
        (res : Resources) (start : Nat) (node : Node) (fi p : Nat),
      walkLoop (fuel+1) i st (.ok (.Call fi) p :: rest) buf res start node =
        walkLoop fuel (i+1) st rest buf res start (node.add_call (i+1) fi)) ∧
    (∀ (fuel i : Nat) (st : MapperSt) (rest : List ReadItem) (buf : List Nat)
        (res : Resources) (start : Nat) (node : Node) (ti p : Nat),
      walkLoop (fuel+1) i st (.ok (.CallIndirect ti) p :: rest) buf res start node =
        walkLoop fuel (i+1) st rest buf res start (node.add_call (i+1) ti)) :=
  ⟨fun _ _ _ _ _ _ _ _ _ _ => rfl, fun _ _ _ _ _ _ _ _ _ _ => rfl⟩

/-- C4 — counterexample.  The claim says a decode error is fatal to the
walk: the walker stops consuming operators, surfaces `BadWasm` and
unwinds.  In the parallelize walker, a decode error at the first read
is merely printed: the walker goes on to consume the following `End`
operator (whose position 9 becomes the node's end) and returns
normally with the whole stream consumed — it neither stops nor
unwinds.  (src/parallelize.rs lines 1714-1719 print the error and fall
back into the loop.) -/
theorem c4_counterexample :
    (map_helper 5 MapperSt.default [.err 1, .ok .End 9] (List.range 12)
        ⟨[], []⟩ 0 0 Node.default).map
      (fun r => (r.2.1.get_end, r.2.2.length)) = some (9, 0) := by decide

/-- C4 — amended.  A decode error is fatal only in the flow_mapper
walker, which panics and unwinds (`panic!("Bad wasm code ...")`,
src/flow_mapper.rs lines 832-835); the parallelize walker instead
prints the error and continues the loop with the next read, the node
unchanged (src/parallelize.rs lines 1714-1719). -/
theorem c4_amended_error_handling :
    (∀ (fuel i : Nat) (st : MapperSt) (rest : List ReadItem) (buf : List Nat)
        (res : Resources) (start : Nat) (node : Node) (p : Nat),
      walkLoop (fuel+1) i st (.err p :: rest) buf res start node =
        walkLoop fuel (i+1) st rest buf res start node) ∧
    (∀ (i : Nat) (node : FNode) (p : Nat) (rest : List ReadItem),
      fwalkLoop i node (.err p :: rest) = .error ()) :=
  ⟨fun _ _ _ _ _ _ _ _ _ => rfl, fun _ _ _ _ => rfl⟩

/-- C7 — counterexample.  The claim says a `BrTable` step records one
branch entry per table entry.  For the table with the two entries
`[0, 1]` (raw buffer `[5, 7]`) the walked node's `branches` holds a
single entry, `(1, 7)` — all the inserts of the arm use the same key
`i`, each overwriting the last (src/parallelize.rs lines 1064-1068) —
so there is no recorded target for each of the two entries. -/
theorem c7_counterexample :
    (map_helper 5 MapperSt.default [.ok (.BrTable [0, 1] [5, 7]) 3, .ok .End 9]
        (List.range 12) ⟨[], []⟩ 0 0 Node.default).map
      (fun r => (r.2.1.data.branches.length, r.2.1.data.branches)) =
    some (1, [(1, 7)]) := by decide

/-- C7 — amended.  A `BrTable { table }` step folds over the table's
entries, inserting each value `table.buffer[entry]` under the one key
`i` (the read ordinal), each insert overwriting the previous; hence
after the step the node's `branches` has grown by at most one entry,
rather than by one entry per table entry. -/
theorem c7_amended_brtable_single_key :
    (∀ (fuel i : Nat) (st : MapperSt) (rest : List ReadItem) (buf : List Nat)
        (res : Resources) (start : Nat) (node : Node) (p : Nat) (es bf : List Nat),
      walkLoop (fuel+1) i st (.ok (.BrTable es bf) p :: rest) buf res start node =
        walkLoop fuel (i+1) st rest buf res start
          (es.foldl (fun nd d => nd.add_branch (i+1) (bf.getD d 0)) node)) ∧
    (∀ (es bf : List Nat) (i : Nat) (node : Node),
      (es.foldl (fun nd d => nd.add_branch i (bf.getD d 0)) node).data.branches.length ≤
        node.data.branches.length + 1) := by
  constructor
  · intro _ _ _ _ _ _ _ _ _ _ _
    rfl
  · intro es bf i node
    rw [branches_foldl_add_branch]
    exact foldl_insertKV_length_le es i _ node.data.branches

/-- C8 — confirmed.  On `End` or `Return` the walker terminates the
current walk (the remaining reads are handed back unconsumed), and the
node's end is set to `position + start` exactly when it was not
already set — the source's test for "not set" being `end == 0`, the
`Node::default` value; function nodes have it preset to the nonzero
body-range end and keep that value. -/
theorem c8_end_return_terminates :
    (∀ (fuel i : Nat) (st : MapperSt) (rest : List ReadItem) (buf : List Nat)
        (res : Resources) (start : Nat) (node : Node) (p : Nat),
      walkLoop (fuel+1) i st (.ok .End p :: rest) buf res start node =
        some (st, (if node.get_end = 0 then node.set_end (p + start) else node), rest)) ∧
    (∀ (fuel i : Nat) (st : MapperSt) (rest : List ReadItem) (buf : List Nat)
        (res : Resources) (start : Nat) (node : Node) (p : Nat),
      walkLoop (fuel+1) i st (.ok .Return p :: rest) buf res start node =
        some (st, (if node.get_end = 0 then node.set_end (p + start) else node), rest)) :=
  ⟨fun _ _ _ _ _ _ _ _ _ => rfl, fun _ _ _ _ _ _ _ _ _ => rfl⟩

theorem funcBlocksLoop_blocks : ∀ (fuel : Nat) (entries : List (Nat × Nat))
    (st : MapperSt) (func : Node) (node_id : Nat) (tree path : List (Nat × Node))
    (r : MapperSt × Node × List (Nat × Node)),
    funcBlocksLoop fuel st func node_id tree path entries = some r →
    r.2.1.get_blocks = func.get_blocks := by
  intro fuel
  induction fuel with
  | zero =>
    intro entries st func node_id tree path r h
    simp [funcBlocksLoop] at h
  | succ fuel ih =>
    intro entries st func node_id tree path r h
    match entries with
    | [] =>
      simp only [funcBlocksLoop, Option.some.injEq] at h
      rw [← h]
    | (s0, idx) :: rest =>
      simp only [funcBlocksLoop] at h
      split at h
      · exact absurd h (by simp)
      · split at h
        · exact absurd h (by simp)
        · have := ih rest _ _ node_id tree _ r h
          rw [this, Node.get_blocks_add_child, Node.get_blocks_add_call]

theorem funcCallsLoop_blocks : ∀ (fuel : Nat) (entries : List (Nat × Nat))
    (st : MapperSt) (func : Node) (node_id : Nat) (tree path : List (Nat × Node))
    (r : MapperSt × Node × List (Nat × Node)),
    funcCallsLoop fuel st func node_id tree path entries = some r →
    r.2.1.get_blocks = func.get_blocks := by
  intro fuel
  induction fuel with
  | zero =>
    intro entries st func node_id tree path r h
    simp [funcCallsLoop] at h
  | succ fuel ih =>
    intro entries st func node_id tree path r h
    match entries with
    | [] =>
      simp only [funcCallsLoop, Option.some.injEq] at h
      rw [← h]
    | (c0, idx) :: rest =>
      simp only [funcCallsLoop] at h
      split at h
      · exact ih rest _ _ node_id tree _ r h
      · split at h
        · exact ih rest _ _ node_id tree _ r h
        · split at h
          · exact ih rest _ _ node_id tree _ r h
          · split at h
            · exact absurd h (by simp)
            · split at h
              · exact absurd h (by simp)
              · have := ih rest _ _ node_id tree _ r h
                rw [this, Node.get_blocks_add_child]

theorem blockBlocksLoop_blocks : ∀ (fuel : Nat) (entries : List (Nat × Nat))
    (st : MapperSt) (block : Node) (node_id : Nat) (tree path : List (Nat × Node))
    (r : MapperSt × Node),
    blockBlocksLoop fuel st block node_id tree path entries = some r →
    r.2.get_blocks = block.get_blocks := by
  intro fuel
  induction fuel with
  | zero =>
    intro entries st block node_id tree path r h
    simp [blockBlocksLoop] at h
  | succ fuel ih =>
    intro entries st block node_id tree path r h
    match entries with
    | [] =>
      simp only [blockBlocksLoop, Option.some.injEq] at h
      rw [← h]
    | (s0, idx) :: rest =>
      simp only [blockBlocksLoop] at h
      split at h
      · exact absurd h (by simp)
      · split at h
        · exact absurd h (by simp)
        · have := ih rest _ _ node_id tree path r h
          rw [this, Node.get_blocks_add_child, Node.get_blocks_add_call,
              Node.get_blocks_remove_instrs]

theorem blockCallsLoop_blocks : ∀ (fuel : Nat) (entries : List (Nat × Nat))
    (st : MapperSt) (block : Node) (node_id : Nat) (tree path : List (Nat × Node))
    (r : MapperSt × Node × List (Nat × Node)),
    blockCallsLoop fuel st block node_id tree path entries = some r →
    r.2.1.get_blocks = block.get_blocks := by
  intro fuel
  induction fuel with
  | zero =>
    intro entries st block node_id tree path r h
    simp [blockCallsLoop] at h
  | succ fuel ih =>
    intro entries st block node_id tree path r h
    match entries with
    | [] =>
      simp only [blockCallsLoop, Option.some.injEq] at h
      rw [← h]
    | (c0, idx) :: rest =>
      simp only [blockCallsLoop] at h
      split at h
      · exact ih rest _ _ node_id tree _ r h
      · split at h
        · exact ih rest _ _ node_id tree _ r h
        · split at h
          · exact absurd h (by simp)
          · split at h
            · exact absurd h (by simp)
            · have := ih rest _ _ node_id tree _ r h
              rw [this, Node.get_blocks_add_child]

/-- C5 — counterexample.  The claim says every node in the expanded map
has an empty `blocks` mapping.  Expanding the walked function `funcC5`
— one recorded inline block, at key 3, registry index 0 — converts the
block into a call edge and a child, but the expanded node's `blocks`
map still holds the recorded entry `(3, 0)`: the expansion never
empties it (no code in `expand_func_tree_helper` or
`expand_block_tree_helper` removes `blocks` entries,
src/parallelize.rs lines 750-887). -/
theorem c5_counterexample :
    (expand_func_tree_helper 10 stC5 funcC5 0 [] []).map (fun r => r.2.get_blocks) =
      some [(3, 0)] ∧
    (expand_func_tree_helper 10 stC5 funcC5 0 [] []).map
      (fun r => (r.2.get_calls, r.2.children.length)) = some ([(3, 1)], 1) :=
  ⟨by decide, by decide⟩

/-- C5 — amended.  The tree-expansion pass converts each recorded inline
block into a call edge plus a first-class child node, but it leaves the
node's `blocks` mapping exactly as the walk recorded it: whenever
expansion of a function or of a block returns a node, that node's
`blocks` equals the input node's `blocks` (in particular it is not
emptied). -/
theorem c5_amended_blocks_preserved :
    (∀ (fuel : Nat) (st : MapperSt) (func : Node) (node_id : Nat)
        (tree path : List (Nat × Node)) (st' : MapperSt) (func' : Node),
      expand_func_tree_helper fuel st func node_id tree path = some (st', func') →
      func'.get_blocks = func.get_blocks) ∧
    (∀ (fuel : Nat) (st : MapperSt) (block : Node) (node_id : Nat)
        (tree path : List (Nat × Node)) (st' : MapperSt) (block' : Node),
      expand_block_tree_helper fuel st block node_id tree path = some (st', block') →
      block'.get_blocks = block.get_blocks) := by
  constructor
  · intro fuel st func node_id tree path st' func' h
    match fuel with
    | 0 => simp [expand_func_tree_helper] at h
    | fuel+1 =>
      simp only [expand_func_tree_helper] at h
      split at h
      · exact absurd h (by simp)
      · rename_i st1 func1 path1 hbl
        split at h
        · exact absurd h (by simp)
        · rename_i st2 func2 path2 hcl
          simp only [Option.some.injEq, Prod.mk.injEq] at h
          have h1 := funcBlocksLoop_blocks fuel _ _ _ _ _ _ _ hbl
          have h2 := funcCallsLoop_blocks fuel _ _ _ _ _ _ _ hcl
          rw [← h.2, h2, h1]
  · intro fuel st block node_id tree path st' block' h
    match fuel with
    | 0 => simp [expand_block_tree_helper] at h
    | fuel+1 =>
      simp only [expand_block_tree_helper] at h
      split at h
      · exact absurd h (by simp)
      · rename_i st1 block1 hbl
        split at h
        · exact absurd h (by simp)
        · rename_i st2 block2 path2 hcl
          simp only [Option.some.injEq, Prod.mk.injEq] at h
          have h1 := blockBlocksLoop_blocks fuel _ _ _ _ _ _ _ hbl
          have h2 := blockCallsLoop_blocks fuel _ _ _ _ _ _ _ hcl
          rw [← h.2, h2, h1]

/-- Witness for C5 — amended, at the C5 configuration. -/
theorem c5_amended_witness : c5wRes.2.get_blocks = funcC5.get_blocks :=
  c5_amended_blocks_preserved.1 10 stC5 funcC5 0 [] [] c5wRes.1 c5wRes.2 rfl

theorem cycStep (g : Nat) (h : expand_block_tree_helper g stCyc cycB 0 [] [] = none) :
    expand_block_tree_helper (g+2) stCyc cycB 0 [] [] = none := by
  have hb : cycB.get_blocks = [(2, 0)] := rfl
  have hg : stCyc.get_block 0 = some cycB := rfl
  simp only [expand_block_tree_helper, blockBlocksLoop, hb, hg, h]

theorem cycAll : ∀ fuel, expand_block_tree_helper fuel stCyc cycB 0 [] [] = none := by
  intro fuel
  induction fuel using Nat.strong_induction_on with
  | _ fuel ih =>
    rcases fuel with _ | (_ | g)
    · rfl
    · rfl
    · exact cycStep g (ih g (by omega))

/-- C9 — counterexample.  The claim says that along any chain of
recursive expansion calls the `path_nodes` set strictly grows.  Expand
the walked configuration `stC9`/`funcC9` — function 0 containing the
block `outerB9`, which itself contains the inner block `innerB9`
(exactly what the walker records for `(func (block (block ...)))`) —
with the ghost call log switched on.  The log shows the chain of the
two recursive block expansions: the first frame (for `outerB9`) is
invoked with `path_nodes` keys `[0]`, and its own recursive call into
`innerB9` passes `path_nodes` with the very same keys `[0]`: the
inner-blocks loop of `expand_block_tree_helper` hands `path_nodes` on
unchanged (src/parallelize.rs line 773 — no `path_nodes.insert` in
that loop), so the set does not strictly grow along this chain.  The
nodes carry instruction bytes sized so that the single
`remove_instrs(2, 3)` splice the run performs indexes only in bounds —
the embedding coincides with the Rust indexing everywhere on this
input.  The plain expansion agrees with the instrumented run on this
input. -/
theorem c9_counterexample :
    (expandFuncT 10 stC9 funcC9 0 [] []).map (fun r => r.2.2) =
      some [⟨1, false, [0]⟩, ⟨0, false, [0]⟩] ∧
    ((expandFuncT 10 stC9 funcC9 0 [] []).map
        (fun r => ((r.2.2.getD 1 ⟨99, true, []⟩).passedPath,
                   (r.2.2.getD 0 ⟨99, true, []⟩).passedPath))) =
      some ([0], [0]) ∧
    (expandFuncT 10 stC9 funcC9 0 [] []).map
        (fun r => (r.2.1.get_calls, r.2.1.children.length, r.2.1.get_blocks)) =
      (expand_func_tree_helper 10 stC9 funcC9 0 [] []).map
        (fun r => (r.2.get_calls, r.2.children.length, r.2.get_blocks)) :=
  ⟨rfl, rfl, rfl⟩

/-- C9 — amended.  A call edge whose callee already occurs in
`path_nodes` is never recursed into: both calls loops skip such an
edge, leaving the mapper state, the node and `path_nodes` untouched.
But `path_nodes` does not strictly grow along every recursion chain —
the inner-blocks loop of `expand_block_tree_helper` passes it on
unchanged — and consequently `path_nodes` growth does not bound the
recursion: on the self-referential block registry `stCyc` (block 0
whose `blocks` map points back at registry index 0, with instruction
bytes keeping every `remove_instrs` splice of the run in bounds) the
expansion runs forever — the fueled embedding returns `none` for
every fuel.
Termination on real inputs relies instead on walker-produced block
registries being well-founded (an inner block is always registered
before the block that records it). -/
theorem c9_amended_expansion_guards :
    (∀ (fuel : Nat) (st : MapperSt) (func : Node) (node_id : Nat)
        (tree path : List (Nat × Node)) (c idx : Nat) (rest : List (Nat × Nat)),
      idx ∈ keysOf path →
      funcCallsLoop (fuel+1) st func node_id tree path ((c, idx) :: rest) =
        funcCallsLoop fuel st func node_id tree path rest) ∧
    (∀ (fuel : Nat) (st : MapperSt) (block : Node) (node_id : Nat)
        (tree path : List (Nat × Node)) (c idx : Nat) (rest : List (Nat × Nat)),
      idx ∈ keysOf path →
      blockCallsLoop (fuel+1) st block node_id tree path ((c, idx) :: rest) =
        blockCallsLoop fuel st block node_id tree path rest) ∧
    (∀ fuel : Nat, expand_block_tree_helper fuel stCyc cycB 0 [] [] = none) := by
  refine ⟨?_, ?_, cycAll⟩
  · intro fuel st func node_id tree path c idx rest hmem
    by_cases h1 : idx = node_id
    · simp [funcCallsLoop, h1]
    · simp [funcCallsLoop, h1, hmem]
  · intro fuel st block node_id tree path c idx rest hmem
    simp [blockCallsLoop, hmem]

/-- Witness for C9 — amended: a concrete skipped call edge (callee 4 is
already on the path). -/
theorem c9_amended_expansion_guards_witness :
    4 ∈ keysOf [(4, Node.default)] ∧
    funcCallsLoop 3 MapperSt.default Node.default 0 [] [(4, Node.default)] [(9, 4)] =
      funcCallsLoop 2 MapperSt.default Node.default 0 [] [(4, Node.default)] [] :=
  ⟨by decide,
   c9_amended_expansion_guards.1 2 MapperSt.default Node.default 0 [] [(4, Node.default)]
     9 4 [] (by decide)⟩
theorem applyRegs_input_len : ∀ (cmds : List RegCmd) (n : Node),
    (∀ k ∈ keysOf n.data.input_variables, k < n.data.id + n.data.input_variables.length) →
    (applyRegs n cmds).data.input_variables.length =
      n.data.input_variables.length + countInp cmds := by
  intro cmds
  induction cmds with
  | nil =>
    intro n _
    simp [applyRegs, countInp]
  | cons c cs ih =>
    intro n h
    cases c with
    | inp ty =>
      have hfresh : (n.data.id + n.data.input_variables.length) ∉
          keysOf n.data.input_variables := by
        intro hmem
        have := h _ hmem
        omega
      have hdata : ((n.add_input_variable ty).2).data.input_variables =
          n.data.input_variables ++ [(n.data.id + n.data.input_variables.length, ty)] := by
        simp only [Node.add_input_variable, Node.data_withData]
        exact insertKV_of_not_mem _ hfresh
      have hid : ((n.add_input_variable ty).2).data.id = n.data.id := by
        simp [Node.add_input_variable, Node.data_withData]
      have h' : ∀ k ∈ keysOf ((n.add_input_variable ty).2).data.input_variables,
          k < ((n.add_input_variable ty).2).data.id +
            ((n.add_input_variable ty).2).data.input_variables.length := by
        rw [hdata, hid]
        intro k hk
        rw [keysOf, List.map_append, List.mem_append] at hk
        rw [List.length_append]
        rcases hk with hk | hk
        · have := h k hk
          simp
          omega
        · simp at hk
          simp [hk]
      have := ih _ h'
      calc (applyRegs n (.inp ty :: cs)).data.input_variables.length
          = (applyRegs (n.add_input_variable ty).2 cs).data.input_variables.length := rfl
        _ = ((n.add_input_variable ty).2).data.input_variables.length + countInp cs := this
        _ = n.data.input_variables.length + countInp (.inp ty :: cs) := by
              rw [hdata]
              simp [countInp, List.countP_cons]
              omega
    | outp ty =>
      have heq : ((n.add_output_variable ty).2).data.input_variables =
          n.data.input_variables := by
        simp [Node.add_output_variable, Node.data_withData]
      have hid : ((n.add_output_variable ty).2).data.id = n.data.id := by
        simp [Node.add_output_variable, Node.data_withData]
      have h' : ∀ k ∈ keysOf ((n.add_output_variable ty).2).data.input_variables,
          k < ((n.add_output_variable ty).2).data.id +
            ((n.add_output_variable ty).2).data.input_variables.length := by
        rw [heq, hid]
        exact h
      have := ih _ h'
      calc (applyRegs n (.outp ty :: cs)).data.input_variables.length
          = ((n.add_output_variable ty).2).data.input_variables.length + countInp cs := this
        _ = n.data.input_variables.length + countInp (.outp ty :: cs) := by
              rw [heq]
              simp [countInp, List.countP_cons]
    | cst ty =>
      have heq : ((n.add_constant ty).2).data.input_variables =
          n.data.input_variables := by
        simp [Node.add_constant, Node.data_withData]
      have hid : ((n.add_constant ty).2).data.id = n.data.id := by
        simp [Node.add_constant, Node.data_withData]
      have h' : ∀ k ∈ keysOf ((n.add_constant ty).2).data.input_variables,
          k < ((n.add_constant ty).2).data.id +
            ((n.add_constant ty).2).data.input_variables.length := by
        rw [heq, hid]
        exact h
      have := ih _ h'
      calc (applyRegs n (.cst ty :: cs)).data.input_variables.length
          = ((n.add_constant ty).2).data.input_variables.length + countInp cs := this
        _ = n.data.input_variables.length + countInp (.cst ty :: cs) := by
              rw [heq]
              simp [countInp, List.countP_cons]
    | intern i ty =>
      have heq : ((n.add_internal_variable i ty).2).data.input_variables =
          n.data.input_variables := by
        simp [Node.add_internal_variable, Node.data_withData]
      have hid : ((n.add_internal_variable i ty).2).data.id = n.data.id := by
        simp [Node.add_internal_variable, Node.data_withData]
      have h' : ∀ k ∈ keysOf ((n.add_internal_variable i ty).2).data.input_variables,
          k < ((n.add_internal_variable i ty).2).data.id +
            ((n.add_internal_variable i ty).2).data.input_variables.length := by
        rw [heq, hid]
        exact h
      have := ih _ h'
      calc (applyRegs n (.intern i ty :: cs)).data.input_variables.length
          = ((n.add_internal_variable i ty).2).data.input_variables.length + countInp cs := this
        _ = n.data.input_variables.length + countInp (.intern i ty :: cs) := by
              rw [heq]
              simp [countInp, List.countP_cons]

theorem applyRegs_output_len : ∀ (cmds : List RegCmd) (n : Node),
    (∀ k ∈ keysOf n.data.output_variables, k < n.data.id + n.data.output_variables.length) →
    (applyRegs n cmds).data.output_variables.length =
      n.data.output_variables.length + countOutp cmds := by
  intro cmds
  induction cmds with
  | nil =>
    intro n _
    simp [applyRegs, countOutp]
  | cons c cs ih =>
    intro n h
    cases c with
    | outp ty =>
      have hfresh : (n.data.id + n.data.output_variables.length) ∉
          keysOf n.data.output_variables := by
        intro hmem
        have := h _ hmem
        omega
      have hdata : ((n.add_output_variable ty).2).data.output_variables =
          n.data.output_variables ++ [(n.data.id + n.data.output_variables.length, ty)] := by
        simp only [Node.add_output_variable, Node.data_withData]
        exact insertKV_of_not_mem _ hfresh
      have hid : ((n.add_output_variable ty).2).data.id = n.data.id := by
        simp [Node.add_output_variable, Node.data_withData]
      have h' : ∀ k ∈ keysOf ((n.add_output_variable ty).2).data.output_variables,
          k < ((n.add_output_variable ty).2).data.id +
            ((n.add_output_variable ty).2).data.output_variables.length := by
        rw [hdata, hid]
        intro k hk
        rw [keysOf, List.map_append, List.mem_append] at hk
        rw [List.length_append]
        rcases hk with hk | hk
        · have := h k hk
          simp
          omega
        · simp at hk
          simp [hk]
      have := ih _ h'
      calc (applyRegs n (.outp ty :: cs)).data.output_variables.length
          = ((n.add_output_variable ty).2).data.output_variables.length + countOutp cs := this
        _ = n.data.output_variables.length + countOutp (.outp ty :: cs) := by
              rw [hdata]
              simp [countOutp, List.countP_cons]
              omega
    | inp ty =>
      have heq : ((n.add_input_variable ty).2).data.output_variables =
          n.data.output_variables := by
        simp [Node.add_input_variable, Node.data_withData]
      have hid : ((n.add_input_variable ty).2).data.id = n.data.id := by
        simp [Node.add_input_variable, Node.data_withData]
      have h' : ∀ k ∈ keysOf ((n.add_input_variable ty).2).data.output_variables,
          k < ((n.add_input_variable ty).2).data.id +
            ((n.add_input_variable ty).2).data.output_variables.length := by
        rw [heq, hid]
        exact h
      have := ih _ h'
      calc (applyRegs n (.inp ty :: cs)).data.output_variables.length
          = ((n.add_input_variable ty).2).data.output_variables.length + countOutp cs := this
        _ = n.data.output_variables.length + countOutp (.inp ty :: cs) := by
              rw [heq]
              simp [countOutp, List.countP_cons]
    | cst ty =>
      have heq : ((n.add_constant ty).2).data.output_variables =
          n.data.output_variables := by
        simp [Node.add_constant, Node.data_withData]
      have hid : ((n.add_constant ty).2).data.id = n.data.id := by
        simp [Node.add_constant, Node.data_withData]
      have h' : ∀ k ∈ keysOf ((n.add_constant ty).2).data.output_variables,
          k < ((n.add_constant ty).2).data.id +
            ((n.add_constant ty).2).data.output_variables.length := by
        rw [heq, hid]
        exact h
      have := ih _ h'
      calc (applyRegs n (.cst ty :: cs)).data.output_variables.length
          = ((n.add_constant ty).2).data.output_variables.length + countOutp cs := this
        _ = n.data.output_variables.length + countOutp (.cst ty :: cs) := by
              rw [heq]
              simp [countOutp, List.countP_cons]
    | intern i ty =>
      have heq : ((n.add_internal_variable i ty).2).data.output_variables =
          n.data.output_variables := by
        simp [Node.add_internal_variable, Node.data_withData]
      have hid : ((n.add_internal_variable i ty).2).data.id = n.data.id := by
        simp [Node.add_internal_variable, Node.data_withData]
      have h' : ∀ k ∈ keysOf ((n.add_internal_variable i ty).2).data.output_variables,
          k < ((n.add_internal_variable i ty).2).data.id +
            ((n.add_internal_variable i ty).2).data.output_variables.length := by
        rw [heq, hid]
        exact h
      have := ih _ h'
      calc (applyRegs n (.intern i ty :: cs)).data.output_variables.length
          = ((n.add_internal_variable i ty).2).data.output_variables.length + countOutp cs := this
        _ = n.data.output_variables.length + countOutp (.intern i ty :: cs) := by
              rw [heq]
              simp [countOutp, List.countP_cons]

theorem applyRegs_constants_len : ∀ (cmds : List RegCmd) (n : Node),
    (∀ k ∈ keysOf n.data.constants, k < n.data.id + 1 + n.data.constants.length) →
    (applyRegs n cmds).data.constants.length =
      n.data.constants.length + countCst cmds := by
  intro cmds
  induction cmds with
  | nil =>
    intro n _
    simp [applyRegs, countCst]
  | cons c cs ih =>
    intro n h
    cases c with
    | cst ty =>
      have hfresh : (n.data.id + 1 + n.data.constants.length) ∉
          keysOf n.data.constants := by
        intro hmem
        have := h _ hmem
        omega
      have hdata : ((n.add_constant ty).2).data.constants =
          n.data.constants ++ [(n.data.id + 1 + n.data.constants.length, ty)] := by
        simp only [Node.add_constant, Node.data_withData]
        exact insertKV_of_not_mem _ hfresh
      have hid : ((n.add_constant ty).2).data.id = n.data.id := by
        simp [Node.add_constant, Node.data_withData]
      have h' : ∀ k ∈ keysOf ((n.add_constant ty).2).data.constants,
          k < ((n.add_constant ty).2).data.id + 1 +
            ((n.add_constant ty).2).data.constants.length := by
        rw [hdata, hid]
        intro k hk
        rw [keysOf, List.map_append, List.mem_append] at hk
        rw [List.length_append]
        rcases hk with hk | hk
        · have := h k hk
          simp
          omega
        · simp at hk
          simp [hk]
      have := ih _ h'
      calc (applyRegs n (.cst ty :: cs)).data.constants.length
          = ((n.add_constant ty).2).data.constants.length + countCst cs := this
        _ = n.data.constants.length + countCst (.cst ty :: cs) := by
              rw [hdata]
              simp [countCst, List.countP_cons]
              omega
    | inp ty =>
      have heq : ((n.add_input_variable ty).2).data.constants = n.data.constants := by
        simp [Node.add_input_variable, Node.data_withData]
      have hid : ((n.add_input_variable ty).2).data.id = n.data.id := by
        simp [Node.add_input_variable, Node.data_withData]
      have h' : ∀ k ∈ keysOf ((n.add_input_variable ty).2).data.constants,
          k < ((n.add_input_variable ty).2).data.id + 1 +
            ((n.add_input_variable ty).2).data.constants.length := by
        rw [heq, hid]
        exact h
      have := ih _ h'
      calc (applyRegs n (.inp ty :: cs)).data.constants.length
          = ((n.add_input_variable ty).2).data.constants.length + countCst cs := this
        _ = n.data.constants.length + countCst (.inp ty :: cs) := by
              rw [heq]
              simp [countCst, List.countP_cons]
    | outp ty =>
      have heq : ((n.add_output_variable ty).2).data.constants = n.data.constants := by
        simp [Node.add_output_variable, Node.data_withData]
      have hid : ((n.add_output_variable ty).2).data.id = n.data.id := by
        simp [Node.add_output_variable, Node.data_withData]
      have h' : ∀ k ∈ keysOf ((n.add_output_variable ty).2).data.constants,
          k < ((n.add_output_variable ty).2).data.id + 1 +
            ((n.add_output_variable ty).2).data.constants.length := by
        rw [heq, hid]
        exact h
      have := ih _ h'
      calc (applyRegs n (.outp ty :: cs)).data.constants.length
          = ((n.add_output_variable ty).2).data.constants.length + countCst cs := this
        _ = n.data.constants.length + countCst (.outp ty :: cs) := by
              rw [heq]
              simp [countCst, List.countP_cons]
    | intern i ty =>
      have heq : ((n.add_internal_variable i ty).2).data.constants = n.data.constants := by
        simp [Node.add_internal_variable, Node.data_withData]
      have hid : ((n.add_internal_variable i ty).2).data.id = n.data.id := by
        simp [Node.add_internal_variable, Node.data_withData]
      have h' : ∀ k ∈ keysOf ((n.add_internal_variable i ty).2).data.constants,
          k < ((n.add_internal_variable i ty).2).data.id + 1 +
            ((n.add_internal_variable i ty).2).data.constants.length := by
        rw [heq, hid]
        exact h
      have := ih _ h'
      calc (applyRegs n (.intern i ty :: cs)).data.constants.length
          = ((n.add_internal_variable i ty).2).data.constants.length + countCst cs := this
        _ = n.data.constants.length + countCst (.intern i ty :: cs) := by
              rw [heq]
              simp [countCst, List.countP_cons]

theorem applyRegs_intern_le : ∀ (cmds : List RegCmd) (n : Node),
    (applyRegs n cmds).data.internal_variables.length ≤
      n.data.internal_variables.length + countIntern cmds := by
  intro cmds
  induction cmds with
  | nil =>
    intro n
    simp [applyRegs, countIntern]
  | cons c cs ih =>
    intro n
    cases c with
    | inp ty =>
      have heq : ((n.add_input_variable ty).2).data.internal_variables =
          n.data.internal_variables := by
        simp [Node.add_input_variable, Node.data_withData]
      have h1 := ih (n.add_input_variable ty).2
      rw [heq] at h1
      have h2 : countIntern (.inp ty :: cs) = countIntern cs := by
        simp [countIntern, List.countP_cons]
      rw [show applyRegs n (.inp ty :: cs) = applyRegs (n.add_input_variable ty).2 cs from rfl,
          h2]
      exact h1
    | outp ty =>
      have heq : ((n.add_output_variable ty).2).data.internal_variables =
          n.data.internal_variables := by
        simp [Node.add_output_variable, Node.data_withData]
      have h1 := ih (n.add_output_variable ty).2
      rw [heq] at h1
      have h2 : countIntern (.outp ty :: cs) = countIntern cs := by
        simp [countIntern, List.countP_cons]
      rw [show applyRegs n (.outp ty :: cs) = applyRegs (n.add_output_variable ty).2 cs from rfl,
          h2]
      exact h1
    | cst ty =>
      have heq : ((n.add_constant ty).2).data.internal_variables =
          n.data.internal_variables := by
        simp [Node.add_constant, Node.data_withData]
      have h1 := ih (n.add_constant ty).2
      rw [heq] at h1
      have h2 : countIntern (.cst ty :: cs) = countIntern cs := by
        simp [countIntern, List.countP_cons]
      rw [show applyRegs n (.cst ty :: cs) = applyRegs (n.add_constant ty).2 cs from rfl, h2]
      exact h1
    | intern i ty =>
      have hins : ((n.add_internal_variable i ty).2).data.internal_variables =
          insertKV n.data.internal_variables i ty := by
        simp [Node.add_internal_variable, Node.data_withData]
      have h1 := ih (n.add_internal_variable i ty).2
      rw [hins] at h1
      have hle := length_insertKV_le n.data.internal_variables i ty
      have h2 : countIntern (.intern i ty :: cs) = countIntern cs + 1 := by
        simp [countIntern, List.countP_cons]
      rw [show applyRegs n (.intern i ty :: cs) =
            applyRegs (n.add_internal_variable i ty).2 cs from rfl, h2]
      omega

theorem applyRegs_intern_eq : ∀ (cmds : List RegCmd) (n : Node),
    (internKeys cmds).Nodup →
    (∀ k ∈ internKeys cmds, k ∉ keysOf n.data.internal_variables) →
    (applyRegs n cmds).data.internal_variables.length =
      n.data.internal_variables.length + countIntern cmds := by
  intro cmds
  induction cmds with
  | nil =>
    intro n _ _
    simp [applyRegs, countIntern]
  | cons c cs ih =>
    intro n hnd hd
    cases c with
    | inp ty =>
      have heq : ((n.add_input_variable ty).2).data.internal_variables =
          n.data.internal_variables := by
        simp [Node.add_input_variable, Node.data_withData]
      have hk : internKeys (.inp ty :: cs) = internKeys cs := by
        simp [internKeys, List.filterMap_cons]
      rw [hk] at hnd hd
      have h1 := ih (n.add_input_variable ty).2 hnd (by rw [heq]; exact hd)
      rw [heq] at h1
      have h2 : countIntern (.inp ty :: cs) = countIntern cs := by
        simp [countIntern, List.countP_cons]
      rw [show applyRegs n (.inp ty :: cs) = applyRegs (n.add_input_variable ty).2 cs from rfl,
          h2]
      exact h1
    | outp ty =>
      have heq : ((n.add_output_variable ty).2).data.internal_variables =
          n.data.internal_variables := by
        simp [Node.add_output_variable, Node.data_withData]
      have hk : internKeys (.outp ty :: cs) = internKeys cs := by
        simp [internKeys, List.filterMap_cons]
      rw [hk] at hnd hd
      have h1 := ih (n.add_output_variable ty).2 hnd (by rw [heq]; exact hd)
      rw [heq] at h1
      have h2 : countIntern (.outp ty :: cs) = countIntern cs := by
        simp [countIntern, List.countP_cons]
      rw [show applyRegs n (.outp ty :: cs) = applyRegs (n.add_output_variable ty).2 cs from rfl,
          h2]
      exact h1
    | cst ty =>
      have heq : ((n.add_constant ty).2).data.internal_variables =
          n.data.internal_variables := by
        simp [Node.add_constant, Node.data_withData]
      have hk : internKeys (.cst ty :: cs) = internKeys cs := by
        simp [internKeys, List.filterMap_cons]
      rw [hk] at hnd hd
      have h1 := ih (n.add_constant ty).2 hnd (by rw [heq]; exact hd)
      rw [heq] at h1
      have h2 : countIntern (.cst ty :: cs) = countIntern cs := by
        simp [countIntern, List.countP_cons]
      rw [show applyRegs n (.cst ty :: cs) = applyRegs (n.add_constant ty).2 cs from rfl, h2]
      exact h1
    | intern i ty =>
      have hk : internKeys (.intern i ty :: cs) = i :: internKeys cs := by
        simp [internKeys, List.filterMap_cons]
      rw [hk] at hnd hd
      rw [List.nodup_cons] at hnd
      have hifresh : i ∉ keysOf n.data.internal_variables :=
        hd i (List.mem_cons_self i _)
      have hins : ((n.add_internal_variable i ty).2).data.internal_variables =
          n.data.internal_variables ++ [(i, ty)] := by
        simp only [Node.add_internal_variable, Node.data_withData]
        exact insertKV_of_not_mem _ hifresh
      have hkeys : keysOf ((n.add_internal_variable i ty).2).data.internal_variables =
          keysOf n.data.internal_variables ++ [i] := by
        rw [hins]
        simp [keysOf]
      have hd' : ∀ k ∈ internKeys cs,
          k ∉ keysOf ((n.add_internal_variable i ty).2).data.internal_variables := by
        intro k hkmem
        rw [hkeys]
        have hk1 : k ∉ keysOf n.data.internal_variables :=
          hd k (List.mem_cons_of_mem i hkmem)
        have hk2 : k ≠ i := by
          intro hcontra
          rw [hcontra] at hkmem
          exact hnd.1 hkmem
        simp [List.mem_append, hk1, hk2]
      have h1 := ih (n.add_internal_variable i ty).2 hnd.2 hd'
      rw [hins] at h1
      have h2 : countIntern (.intern i ty :: cs) = countIntern cs + 1 := by
        simp [countIntern, List.countP_cons]
      rw [show applyRegs n (.intern i ty :: cs) =
            applyRegs (n.add_internal_variable i ty).2 cs from rfl, h2]
      rw [h1]
      simp
      omega

/-- C2 — counterexample.  The claim says the ids returned by the four
registration methods are pairwise distinct across kinds and never
reused, so the four map sizes sum to the total number of
registrations.  On a default node (id 0), the first input-variable
registration returns id 0 and the immediately following
output-variable registration also returns id 0 (their formulas,
`self.id + input_variables.len()` and `self.id +
output_variables.len()`, coincide on fresh maps): the ids are not
distinct across kinds.  Moreover, after the four registrations
`input, output, internal(step 5), internal(step 5)` — the second
internal registration overwriting the first's key — the four sizes
sum to 3, not to the 4 registrations performed. -/
theorem c2_counterexample :
    (Node.default.add_input_variable .I32).1 = 0 ∧
    ((Node.default.add_input_variable .I32).2.add_output_variable .I32).1 = 0 ∧
    ((applyRegs Node.default
        [.inp .I32, .outp .I32, .intern 5 .I32, .intern 5 .I64]).data.input_variables.length +
     (applyRegs Node.default
        [.inp .I32, .outp .I32, .intern 5 .I32, .intern 5 .I64]).data.internal_variables.length +
     (applyRegs Node.default
        [.inp .I32, .outp .I32, .intern 5 .I32, .intern 5 .I64]).data.constants.length +
     (applyRegs Node.default
        [.inp .I32, .outp .I32, .intern 5 .I32, .intern 5 .I64]).data.output_variables.length) = 3 :=
  ⟨by decide, by decide, by decide⟩

/-- C2 — amended.  The id returned by each registration method is a
fixed function of the node: `id + |input_variables|` for inputs,
`id + |output_variables|` for outputs, `id + 1 + |constants|` for
constants and `i - 1` for an internal registration at step `i`.
Within each of the input, output and constant kinds the ids are
therefore fresh on every registration and never reused, and starting
from a node with empty variable maps, each of those three map sizes
equals the number of registrations of its kind; the ids are however
not disjoint across kinds (the first input and the first output
registration return the same id, the node id).  Internal-variable
ids are the caller-supplied steps and can be overwritten, so the
internal map size is only bounded by the number of internal
registrations, with equality when the supplied steps are distinct —
only then does the sum of the four sizes equal the total number of
registrations. -/
theorem c2_amended_variable_id_accounting :
    (∀ (n : Node) (ty : Ty),
      (n.add_input_variable ty).1 = n.data.id + n.data.input_variables.length) ∧
    (∀ (n : Node) (ty : Ty),
      (n.add_output_variable ty).1 = n.data.id + n.data.output_variables.length) ∧
    (∀ (n : Node) (ty : Ty),
      (n.add_constant ty).1 = n.data.id + 1 + n.data.constants.length) ∧
    (∀ (n : Node) (i : Nat) (ty : Ty), (n.add_internal_variable i ty).1 = i - 1) ∧
    (∀ (k : Nat) (cmds : List RegCmd),
      (applyRegs (Node.default.set_id k) cmds).data.input_variables.length = countInp cmds ∧
      (applyRegs (Node.default.set_id k) cmds).data.output_variables.length = countOutp cmds ∧
      (applyRegs (Node.default.set_id k) cmds).data.constants.length = countCst cmds ∧
      (applyRegs (Node.default.set_id k) cmds).data.internal_variables.length ≤
        countIntern cmds ∧
      ((internKeys cmds).Nodup →
        (applyRegs (Node.default.set_id k) cmds).data.internal_variables.length =
          countIntern cmds)) := by
  refine ⟨fun _ _ => rfl, fun _ _ => rfl, fun _ _ => rfl, fun _ _ _ => rfl, ?_⟩
  intro k cmds
  have hbase1 : ∀ j ∈ keysOf (Node.default.set_id k).data.input_variables,
      j < (Node.default.set_id k).data.id +
        (Node.default.set_id k).data.input_variables.length := by
    intro j hj
    simp [Node.default, Node.set_id, Node.withData, Node.data, keysOf] at hj
  have hbase2 : ∀ j ∈ keysOf (Node.default.set_id k).data.output_variables,
      j < (Node.default.set_id k).data.id +
        (Node.default.set_id k).data.output_variables.length := by
    intro j hj
    simp [Node.default, Node.set_id, Node.withData, Node.data, keysOf] at hj
  have hbase3 : ∀ j ∈ keysOf (Node.default.set_id k).data.constants,
      j < (Node.default.set_id k).data.id + 1 +
        (Node.default.set_id k).data.constants.length := by
    intro j hj
    simp [Node.default, Node.set_id, Node.withData, Node.data, keysOf] at hj
  have hbase4 : ∀ j ∈ internKeys cmds,
      j ∉ keysOf (Node.default.set_id k).data.internal_variables := by
    intro j _
    simp [Node.default, Node.set_id, Node.withData, Node.data, keysOf]
  refine ⟨?_, ?_, ?_, ?_, ?_⟩
  · have := applyRegs_input_len cmds (Node.default.set_id k) hbase1
    simpa [Node.default, Node.set_id, Node.withData, Node.data] using this
  · have := applyRegs_output_len cmds (Node.default.set_id k) hbase2
    simpa [Node.default, Node.set_id, Node.withData, Node.data] using this
  · have := applyRegs_constants_len cmds (Node.default.set_id k) hbase3
    simpa [Node.default, Node.set_id, Node.withData, Node.data] using this
  · have := applyRegs_intern_le cmds (Node.default.set_id k)
    simpa [Node.default, Node.set_id, Node.withData, Node.data] using this
  · intro hnd
    have := applyRegs_intern_eq cmds (Node.default.set_id k) hnd hbase4
    simpa [Node.default, Node.set_id, Node.withData, Node.data] using this

/-- Witness for C2 — amended: two internal registrations at distinct
steps, where the sizes equal the registration counts. -/
theorem c2_amended_variable_id_accounting_witness :
    (internKeys [RegCmd.intern 1 .I32, RegCmd.intern 2 .I64]).Nodup ∧
    (applyRegs (Node.default.set_id 0)
        [RegCmd.intern 1 .I32, RegCmd.intern 2 .I64]).data.internal_variables.length =
      countIntern [RegCmd.intern 1 .I32, RegCmd.intern 2 .I64] :=
  ⟨by decide,
   (c2_amended_variable_id_accounting.2.2.2.2 0
     [RegCmd.intern 1 .I32, RegCmd.intern 2 .I64]).2.2.2.2 (by decide)⟩
